import Mathlib

set_option maxHeartbeats 1000000
set_option maxRecDepth 100000

/-!
Verification development for the flippyfloppy repository.

The repository contains three converters:
- a DOCX to AsciiDoc converter (src/documents/docx2ascii.ts) built from a
  chain of regular-expression substitutions over the intermediate Markdown
  text plus a post-processing stage;
- an AsciiDoc to DOCX orchestrator (src/documents/ascii2docx.ts, first part);
- a geospatial format converter (src/documents/ascii2docx.ts, second part)
  dispatching SQL statements to an embedded spatial engine.

The embedding below translates the string-rewriting functions into
executable Lean functions on character lists, and the orchestration and
engine-facing code into explicit state passing.  Regular expressions with
the flags gm that are anchored as whole-line patterns are modelled per
line; the char-level patterns are modelled as left-to-right scanners that
reproduce the semantics of a global JavaScript replace (try to match at the
current position; on a match, emit the replacement and continue after the
match; otherwise emit one character and advance).  External libraries
(mammoth, turndown, asciidoctor, html-to-docx, DuckDB) are modelled as
abstract operations that record their inputs or read from an explicit file
map; the SQL statements sent to the spatial engine are modelled by their
effect on an explicit table store.
-/

namespace Spec2Proof

/-! ## Shared line utilities -/

/-- Split a character list into its newline-separated lines. -/
def splitLines : List Char → List (List Char)
  | [] => [[]]
  | '\n' :: rest => [] :: splitLines rest
  | c :: rest =>
    match splitLines rest with
    | [] => [[c]]
    | l :: ls => (c :: l) :: ls

/-- Join lines back with single newlines. -/
def joinLines : List (List Char) → List Char
  | [] => []
  | [l] => l
  | l :: ls => l ++ '\n' :: joinLines ls

theorem splitLines_ne_nil (cs : List Char) : splitLines cs ≠ [] := by
  induction cs with
  | nil => simp [splitLines]
  | cons c rest ih =>
    rw [splitLines.eq_def]
    split
    · simp
    · simp
    · split <;> simp

theorem splitLines_cons_ne {c : Char} {rest l : List Char} {ls : List (List Char)}
    (hc : c ≠ '\n') (h : splitLines rest = l :: ls) :
    splitLines (c :: rest) = (c :: l) :: ls := by
  rw [splitLines.eq_def]
  split
  all_goals simp_all [List.cons.injEq]

theorem joinLines_cons (l : List Char) (L : List (List Char)) (h : L ≠ []) :
    joinLines (l :: L) = l ++ '\n' :: joinLines L := by
  cases L with
  | nil => exact absurd rfl h
  | cons a ls => rfl

theorem joinLines_splitLines (cs : List Char) : joinLines (splitLines cs) = cs := by
  induction cs with
  | nil => rfl
  | cons c rest ih =>
    by_cases hc : c = '\n'
    · subst hc
      rw [show splitLines ('\n' :: rest) = [] :: splitLines rest from rfl,
        joinLines_cons _ _ (splitLines_ne_nil rest), ih]
      rfl
    · obtain ⟨l0, ls0, h0⟩ := List.exists_cons_of_ne_nil (splitLines_ne_nil rest)
      rw [splitLines_cons_ne hc h0]
      rw [h0] at ih
      cases ls0 with
      | nil =>
        simp only [joinLines] at ih ⊢
        rw [ih]
      | cons b bs =>
        rw [joinLines_cons _ _ (by simp)] at ih
        rw [joinLines_cons _ _ (by simp), List.cons_append, ih]

/-- Elements produced by splitLines contain no newline. -/
theorem splitLines_no_newline (cs : List Char) :
    ∀ l ∈ splitLines cs, '\n' ∉ l := by
  induction cs with
  | nil => simp [splitLines]
  | cons c rest ih =>
    by_cases hc : c = '\n'
    · subst hc
      rw [show splitLines ('\n' :: rest) = [] :: splitLines rest from rfl]
      intro l hl
      rcases List.mem_cons.mp hl with h | h
      · simp [h]
      · exact ih l h
    · obtain ⟨l0, ls0, h0⟩ := List.exists_cons_of_ne_nil (splitLines_ne_nil rest)
      rw [splitLines_cons_ne hc h0]
      intro l hl
      rcases List.mem_cons.mp hl with h | h
      · subst h
        intro hmem
        rcases List.mem_cons.mp hmem with h1 | h1
        · exact hc h1.symm
        · exact ih l0 (h0 ▸ List.mem_cons_self _ _) h1
      · exact ih l (h0 ▸ List.mem_cons_of_mem _ h)

/-- A newline-free list is a single line. -/
theorem splitLines_single (l : List Char) (hl : '\n' ∉ l) : splitLines l = [l] := by
  induction l with
  | nil => rfl
  | cons c cs ih =>
    have hc : c ≠ '\n' := fun hcc => hl (hcc ▸ List.mem_cons_self _ _)
    have := ih (fun hm => hl (List.mem_cons_of_mem _ hm))
    rw [splitLines_cons_ne hc this]

/-- Splitting at the first newline after a newline-free block. -/
theorem splitLines_line_append (l ys : List Char) (hl : '\n' ∉ l) :
    splitLines (l ++ '\n' :: ys) = l :: splitLines ys := by
  induction l with
  | nil => rfl
  | cons c cs ih =>
    have hc : c ≠ '\n' := fun hcc => hl (hcc ▸ List.mem_cons_self _ _)
    have := ih (fun hm => hl (List.mem_cons_of_mem _ hm))
    rw [List.cons_append, splitLines_cons_ne hc this]

/-- Splitting a join of newline-free lines recovers the lines. -/
theorem splitLines_joinLines (L : List (List Char)) (hL : L ≠ [])
    (h : ∀ l ∈ L, '\n' ∉ l) : splitLines (joinLines L) = L := by
  induction L with
  | nil => exact absurd rfl hL
  | cons l ls ih =>
    cases ls with
    | nil =>
      simp only [joinLines]
      exact splitLines_single l (h l (List.mem_cons_self _ _))
    | cons m ms =>
      rw [joinLines_cons _ _ (by simp)]
      rw [splitLines_line_append _ _ (h l (List.mem_cons_self _ _))]
      rw [ih (by simp) (fun x hx => h x (List.mem_cons_of_mem _ hx))]

/-- Apply a per-line rewrite to a whole document, as a multiline anchored
regular expression does. -/
def mapLines (f : List Char → List Char) (cs : List Char) : List Char :=
  joinLines ((splitLines cs).map f)

/-- Generic fact about takeWhile and dropWhile over an append whose first
part satisfies the predicate and whose second part starts failing it. -/
theorem takeWhile_append_eq {p : Char → Bool} :
    ∀ (xs ys : List Char), (∀ c ∈ xs, p c = true) →
      (∀ c, ys.head? = some c → p c = false) →
      (xs ++ ys).takeWhile p = xs ∧ (xs ++ ys).dropWhile p = ys := by
  intro xs
  induction xs with
  | nil =>
    intro ys _ hy
    cases ys with
    | nil => simp
    | cons c ys' =>
      have := hy c rfl
      simp [List.takeWhile_cons, List.dropWhile_cons, this]
  | cons x xs' ih =>
    intro ys hx hy
    have hpx : p x = true := hx x (List.mem_cons_self _ _)
    have := ih ys (fun c hc => hx c (List.mem_cons_of_mem _ hc)) hy
    simp [List.takeWhile_cons, List.dropWhile_cons, hpx, this.1, this.2]

/-! ## DOCX to AsciiDoc converter (docx2ascii.ts) -/

namespace Docx2Ascii

/-- Options record of DocxToAsciidocOptions from docx2ascii.ts.  The
codeBlockStyle option is consumed only by the external turndown
configuration and carries no weight in the modelled stages. -/
structure DocxToAsciidocOptions where
  headingLevel : Option Nat := none
  includeAttributes : Bool := false
  attributes : List (String × String) := []
  preserveLineBreaks : Bool := false
  codeBlockStyle : Option String := none
  includeToc : Bool := false
deriving DecidableEq

/-- Horizontal whitespace as matched by a JavaScript regex class within a
single line (the newline member of the class never occurs inside a split
line).  Unicode space characters are not used by any input considered
here. -/
def isSpTab (c : Char) : Bool :=
  c == ' ' || c == '\t' || c == '\r' || c == '\x0b' || c == '\x0c'

/-- Semantics of a greedy whitespace-run-then-rest match on the remainder
of a line: the pattern fragment consisting of one or more whitespace
characters followed by one or more arbitrary characters.  When the
remainder is whitespace only, the regex engine backtracks and leaves the
last character to the second group. -/
def splitWsContent (rest : List Char) : Option (List Char × List Char) :=
  let ws := rest.takeWhile isSpTab
  let content := rest.dropWhile isSpTab
  if ws = [] then none
  else if content ≠ [] then some (ws, content)
  else if 2 ≤ rest.length then some (rest.dropLast, rest.drop (rest.length - 1))
  else none

/-- Heading substitution of markdownToAsciidoc (docx2ascii.ts lines
120-124): a line of one to six hash characters, whitespace and text is
rewritten to level-plus-offset equals signs, a space and the text. -/
def convertHeaderLine (offset : Nat) (line : List Char) : List Char :=
  let hashes := line.takeWhile (· == '#')
  if 1 ≤ hashes.length ∧ hashes.length ≤ 6 then
    match splitWsContent (line.dropWhile (· == '#')) with
    | some (_, content) => List.replicate (hashes.length + offset) '=' ++ ' ' :: content
    | none => line
  else line

theorem isSpTab_ne_hash {c : Char} (h : isSpTab c = true) : (c == '#') = false := by
  simp only [isSpTab, Bool.or_eq_true, beq_iff_eq] at h
  rcases h with ((((h | h) | h) | h) | h) <;> subst h <;> decide

/-- Claim C1: for every Markdown heading of level 1-6 (a line of 1-6 hash
characters, whitespace, then text) and every heading-level offset 0-5, the
heading substitution of markdownToAsciidoc rewrites the heading line to
exactly level+offset equals characters followed by a single space and the
original heading text. -/
theorem C1_heading_rewrite (n offset : Nat) (ws text : List Char)
    (hn1 : 1 ≤ n) (hn6 : n ≤ 6) (hoff : offset ≤ 5)
    (hws : ws ≠ []) (hwsall : ∀ c ∈ ws, isSpTab c = true)
    (htext : text ≠ []) (hth : ∀ c, text.head? = some c → isSpTab c = false) :
    convertHeaderLine offset (List.replicate n '#' ++ (ws ++ text))
      = List.replicate (n + offset) '=' ++ ' ' :: text := by
  have hhead : ∀ c, (ws ++ text).head? = some c → (c == '#') = false := by
    intro c hc
    cases ws with
    | nil => exact absurd rfl hws
    | cons w ws' =>
      simp only [List.cons_append, List.head?_cons, Option.some.injEq] at hc
      subst hc
      exact isSpTab_ne_hash (hwsall _ (List.mem_cons_self _ _))
  have htw := takeWhile_append_eq (p := (· == '#')) (List.replicate n '#') (ws ++ text)
    (by intro c hc; simp only [List.eq_of_mem_replicate hc]; rfl) hhead
  have hws2 := takeWhile_append_eq (p := isSpTab) ws text hwsall hth
  simp only [convertHeaderLine, splitWsContent, htw.1, htw.2, hws2.1, hws2.2,
    List.length_replicate]
  rw [if_pos ⟨hn1, hn6⟩, if_neg hws, if_pos htext]

/-- Witness for C1 at the heading line of three hashes and text. -/
theorem C1_heading_rewrite_witness :
    convertHeaderLine 2 (List.replicate 3 '#' ++ ([' '] ++ "Title".data))
      = List.replicate (3 + 2) '=' ++ ' ' :: "Title".data :=
  C1_heading_rewrite 3 2 [' '] "Title".data (by decide) (by decide) (by decide)
    (by decide) (by decide) (by decide) (by decide)

/-! ### The full substitution chain of markdownToAsciidoc (docx2ascii.ts
lines 114-153).  Each global regex replace is a left-to-right scanner; the
non-greedy groups are found by shortest-completion searches that follow
the backtracking of the regex engine. -/

theorem length_dropWhile_le (p : Char → Bool) (l : List Char) :
    (l.dropWhile p).length ≤ l.length := by
  induction l with
  | nil => simp
  | cons c cs ih =>
    rw [List.dropWhile_cons]
    split
    · exact Nat.le_succ_of_le ih
    · simp

/-- Shortest newline-free group closed by a double star, as matched by the
lazy group of the bold pattern (docx2ascii.ts line 127). -/
def findBoldClose : List Char → Option (List Char × List Char)
  | '*' :: '*' :: rest => some ([], rest)
  | '\n' :: _ => none
  | c :: rest => (findBoldClose rest).map (fun p => (c :: p.1, p.2))
  | [] => none

theorem findBoldClose_spec (cs : List Char) :
    ∀ x r, findBoldClose cs = some (x, r) → cs = x ++ '*' :: '*' :: r := by
  induction cs using findBoldClose.induct with
  | case1 rest =>
    intro x r h
    simp only [findBoldClose, Option.some.injEq, Prod.mk.injEq] at h
    obtain ⟨h1, h2⟩ := h
    subst h1
    subst h2
    rfl
  | case2 rest =>
    intro x r h
    simp [findBoldClose] at h
  | case3 c rest h1 h2 ih =>
    intro x r h
    simp only [findBoldClose, Option.map_eq_some'] at h
    obtain ⟨⟨x1, r1⟩, hfind, heq⟩ := h
    simp only [Prod.mk.injEq] at heq
    obtain ⟨ha, hb⟩ := heq
    subst hb
    rw [← ha, List.cons_append, ← ih x1 r1 hfind]
  | case4 =>
    intro x r h
    simp [findBoldClose] at h

/-- Bold substitution (docx2ascii.ts line 127): double-star delimiters
are rewritten to single-star delimiters. -/
def boldSub : List Char → List Char
  | '*' :: '*' :: rest =>
    match h : findBoldClose rest with
    | some (x, r) => '*' :: x ++ '*' :: boldSub r
    | none => '*' :: boldSub ('*' :: rest)
  | c :: rest => c :: boldSub rest
  | [] => []
termination_by cs => cs.length
decreasing_by
  · have hs := findBoldClose_spec rest x r h
    have : rest.length = x.length + (r.length + 2) := by
      rw [hs]; simp [List.length_append]
    simp only [List.length_cons]
    omega
  · simp only [List.length_cons]
    omega
  · simp only [List.length_cons]
    omega

/-- Shortest newline-free group closed by an underscore, as matched by the
lazy group of the italic pattern (docx2ascii.ts line 130). -/
def findUnderClose : List Char → Option (List Char × List Char)
  | '_' :: rest => some ([], rest)
  | '\n' :: _ => none
  | c :: rest => (findUnderClose rest).map (fun p => (c :: p.1, p.2))
  | [] => none

theorem findUnderClose_spec (cs : List Char) :
    ∀ x r, findUnderClose cs = some (x, r) → cs = x ++ '_' :: r := by
  induction cs using findUnderClose.induct with
  | case1 rest =>
    intro x r h
    simp only [findUnderClose, Option.some.injEq, Prod.mk.injEq] at h
    obtain ⟨h1, h2⟩ := h
    subst h1
    subst h2
    rfl
  | case2 rest =>
    intro x r h
    simp [findUnderClose] at h
  | case3 c rest h1 h2 ih =>
    intro x r h
    simp only [findUnderClose, Option.map_eq_some'] at h
    obtain ⟨⟨x1, r1⟩, hfind, heq⟩ := h
    simp only [Prod.mk.injEq] at heq
    obtain ⟨ha, hb⟩ := heq
    subst hb
    rw [← ha, List.cons_append, ← ih x1 r1 hfind]
  | case4 =>
    intro x r h
    simp [findUnderClose] at h

/-- Italic substitution (docx2ascii.ts line 130): the replacement
reproduces the matched text, so the pass is semantically the identity,
which the development proves rather than assumes. -/
def italicSub : List Char → List Char
  | '_' :: rest =>
    match h : findUnderClose rest with
    | some (x, r) => '_' :: x ++ '_' :: italicSub r
    | none => '_' :: italicSub rest
  | c :: rest => c :: italicSub rest
  | [] => []
termination_by cs => cs.length
decreasing_by
  · have hs := findUnderClose_spec rest x r h
    have : rest.length = x.length + (r.length + 1) := by
      rw [hs]; simp [List.length_append]
    simp only [List.length_cons]
    omega
  · simp only [List.length_cons]
    omega
  · simp only [List.length_cons]
    omega

/-- Shortest group closed by a triple backtick, as matched by the lazy
any-character group of the fenced code block patterns (docx2ascii.ts lines
133 and 138); this group may span lines. -/
def findFenceClose : List Char → Option (List Char × List Char)
  | '`' :: '`' :: '`' :: rest => some ([], rest)
  | c :: rest => (findFenceClose rest).map (fun p => (c :: p.1, p.2))
  | [] => none

theorem findFenceClose_spec (cs : List Char) :
    ∀ x r, findFenceClose cs = some (x, r) → cs = x ++ '`' :: '`' :: '`' :: r := by
  induction cs using findFenceClose.induct with
  | case1 rest =>
    intro x r h
    simp only [findFenceClose, Option.some.injEq, Prod.mk.injEq] at h
    obtain ⟨h1, h2⟩ := h
    subst h1
    subst h2
    rfl
  | case2 c rest h1 ih =>
    intro x r h
    simp only [findFenceClose, Option.map_eq_some'] at h
    obtain ⟨⟨x1, r1⟩, hfind, heq⟩ := h
    simp only [Prod.mk.injEq] at heq
    obtain ⟨ha, hb⟩ := heq
    subst hb
    rw [← ha, List.cons_append, ← ih x1 r1 hfind]
  | case3 =>
    intro x r h
    simp [findFenceClose] at h

/-- Word characters of the regex class matching the language tag. -/
def isWordChar (c : Char) : Bool := c.isAlphanum || c == '_'

/-- Language-tagged fence substitution (docx2ascii.ts lines 133-135):
three backticks, a word run, a newline and the lazily-matched code up to
the closing three backticks become a source block; the code content keeps
its trailing newline, so the closing delimiter sits on its own line. -/
def fenceLangSub : List Char → List Char
  | '`' :: '`' :: '`' :: rest =>
    if rest.takeWhile isWordChar = [] then '`' :: fenceLangSub ('`' :: '`' :: rest)
    else
      match h1 : rest.dropWhile isWordChar with
      | '\n' :: rest2 =>
        match h2 : findFenceClose rest2 with
        | some (code, rest3) =>
          "[source,".data ++ rest.takeWhile isWordChar ++ "]\n----\n".data
            ++ code ++ "----\n".data ++ fenceLangSub rest3
        | none => '`' :: fenceLangSub ('`' :: '`' :: rest)
      | _ => '`' :: fenceLangSub ('`' :: '`' :: rest)
  | c :: rest => c :: fenceLangSub rest
  | [] => []
termination_by cs => cs.length
decreasing_by
  · simp only [List.length_cons]
    omega
  · have hs := findFenceClose_spec rest2 code rest3 h2
    have hd : ('\n' :: rest2).length ≤ rest.length := by
      rw [← h1]; exact length_dropWhile_le _ _
    have : rest2.length = code.length + (rest3.length + 3) := by
      rw [hs]; simp [List.length_append]
    simp only [List.length_cons] at hd ⊢
    omega
  · simp only [List.length_cons]
    omega
  · simp only [List.length_cons]
    omega
  · simp only [List.length_cons]
    omega

/-- Untagged fence substitution (docx2ascii.ts line 138). -/
def fencePlainSub : List Char → List Char
  | '`' :: '`' :: '`' :: '\n' :: rest =>
    match h : findFenceClose rest with
    | some (code, r) => "----\n".data ++ code ++ "----\n".data ++ fencePlainSub r
    | none => '`' :: fencePlainSub ('`' :: '`' :: '\n' :: rest)
  | c :: rest => c :: fencePlainSub rest
  | [] => []
termination_by cs => cs.length
decreasing_by
  · have hs := findFenceClose_spec rest code r h
    have : rest.length = code.length + (r.length + 3) := by
      rw [hs]; simp [List.length_append]
    simp only [List.length_cons]
    omega
  · simp only [List.length_cons]
    omega
  · simp only [List.length_cons]
    omega

/-- Group of one or more non-backtick characters closed by a backtick, as
matched by the inline-code pattern (docx2ascii.ts line 141). -/
def findTickClose : List Char → Option (List Char × List Char)
  | '`' :: rest => some ([], rest)
  | c :: rest => (findTickClose rest).map (fun p => (c :: p.1, p.2))
  | [] => none

theorem findTickClose_spec (cs : List Char) :
    ∀ x r, findTickClose cs = some (x, r) → cs = x ++ '`' :: r := by
  induction cs using findTickClose.induct with
  | case1 rest =>
    intro x r h
    simp only [findTickClose, Option.some.injEq, Prod.mk.injEq] at h
    obtain ⟨h1, h2⟩ := h
    subst h1
    subst h2
    rfl
  | case2 c rest h1 ih =>
    intro x r h
    simp only [findTickClose, Option.map_eq_some'] at h
    obtain ⟨⟨x1, r1⟩, hfind, heq⟩ := h
    simp only [Prod.mk.injEq] at heq
    obtain ⟨ha, hb⟩ := heq
    subst hb
    rw [← ha, List.cons_append, ← ih x1 r1 hfind]
  | case3 =>
    intro x r h
    simp [findTickClose] at h

/-- Inline-code substitution (docx2ascii.ts line 141): the replacement
reproduces the matched text; a backtick pair with an empty group does not
match (the group needs at least one character) and scanning advances one
character. -/
def inlineCodeSub : List Char → List Char
  | '`' :: rest =>
    match h : findTickClose rest with
    | some ([], _) => '`' :: inlineCodeSub rest
    | some (x, r) => '`' :: x ++ '`' :: inlineCodeSub r
    | none => '`' :: inlineCodeSub rest
  | c :: rest => c :: inlineCodeSub rest
  | [] => []
termination_by cs => cs.length
decreasing_by
  · simp only [List.length_cons]
    omega
  · have hs := findTickClose_spec rest x r h
    have : rest.length = x.length + (r.length + 1) := by
      rw [hs]; simp [List.length_append]
    simp only [List.length_cons]
    omega
  · simp only [List.length_cons]
    omega
  · simp only [List.length_cons]
    omega

/-- Blockquote substitution (docx2ascii.ts line 144), per line: a line of
a quote marker, whitespace and text becomes a quote block; the text kept
is the second capture under the same greedy-whitespace semantics as the
headings. -/
def convertQuoteLine (line : List Char) : List Char :=
  match line with
  | '>' :: rest =>
    match splitWsContent rest with
    | some (_, content) => "[quote]\n____\n".data ++ content ++ "\n____\n".data
    | none => line
  | _ => line

/-- Group of the lazily-matched link url closed by a closing parenthesis
(docx2ascii.ts line 147). -/
def findParenClose : List Char → Option (List Char × List Char)
  | ')' :: rest => some ([], rest)
  | '\n' :: _ => none
  | c :: rest => (findParenClose rest).map (fun p => (c :: p.1, p.2))
  | [] => none

theorem findParenClose_spec (cs : List Char) :
    ∀ x r, findParenClose cs = some (x, r) → cs = x ++ ')' :: r := by
  induction cs using findParenClose.induct with
  | case1 rest =>
    intro x r h
    simp only [findParenClose, Option.some.injEq, Prod.mk.injEq] at h
    obtain ⟨h1, h2⟩ := h
    subst h1
    subst h2
    rfl
  | case2 rest =>
    intro x r h
    simp [findParenClose] at h
  | case3 c rest h1 h2 ih =>
    intro x r h
    simp only [findParenClose, Option.map_eq_some'] at h
    obtain ⟨⟨x1, r1⟩, hfind, heq⟩ := h
    simp only [Prod.mk.injEq] at heq
    obtain ⟨ha, hb⟩ := heq
    subst hb
    rw [← ha, List.cons_append, ← ih x1 r1 hfind]
  | case4 =>
    intro x r h
    simp [findParenClose] at h

/-- Search for the completing link pattern after the opening bracket: the
lazy text group extends to the first bracket-parenthesis pair whose url
group completes with a closing parenthesis; on a failed completion the
text group extends past the pair, as the regex engine backtracks. -/
def findLinkMatch : List Char → Option ((List Char × List Char) × List Char)
  | ']' :: '(' :: rest =>
    (match findParenClose rest with
     | some (u, r) => some (([], u), r)
     | none => (findLinkMatch ('(' :: rest)).map (fun p => ((']' :: p.1.1, p.1.2), p.2)))
  | '\n' :: _ => none
  | c :: rest => (findLinkMatch rest).map (fun p => ((c :: p.1.1, p.1.2), p.2))
  | [] => none

theorem findLinkMatch_spec (cs : List Char) :
    ∀ t u r, findLinkMatch cs = some ((t, u), r) →
      cs = t ++ ']' :: '(' :: (u ++ ')' :: r) := by
  induction cs using findLinkMatch.induct with
  | case1 rest u r hp =>
    intro t u2 r2 h
    simp only [findLinkMatch, hp, Option.some.injEq, Prod.mk.injEq] at h
    obtain ⟨⟨h1, h2⟩, h3⟩ := h
    subst h1
    subst h2
    subst h3
    rw [findParenClose_spec rest u r hp]
    rfl
  | case2 rest hp ih =>
    intro t u r h
    have hstep : findLinkMatch (']' :: '(' :: rest)
        = (findLinkMatch ('(' :: rest)).map (fun p => ((']' :: p.1.1, p.1.2), p.2)) := by
      rw [findLinkMatch.eq_def]
      simp [hp]
    rw [hstep, Option.map_eq_some'] at h
    obtain ⟨⟨⟨t1, u1⟩, r1⟩, hfind, heq⟩ := h
    simp only [Prod.mk.injEq] at heq
    obtain ⟨⟨ha, hb⟩, hc⟩ := heq
    subst hb
    subst hc
    rw [← ha]
    have := ih t1 u1 r1 hfind
    simp only [List.cons_append] at this ⊢
    rw [← this]
  | case3 rest =>
    intro t u r h
    simp [findLinkMatch] at h
  | case4 c rest h1 h2 ih =>
    intro t u r h
    simp only [findLinkMatch, Option.map_eq_some'] at h
    obtain ⟨⟨⟨t1, u1⟩, r1⟩, hfind, heq⟩ := h
    simp only [Prod.mk.injEq] at heq
    obtain ⟨⟨ha, hb⟩, hc⟩ := heq
    subst hb
    subst hc
    rw [← ha, List.cons_append, ← ih t1 u1 r1 hfind]
  | case5 =>
    intro t u r h
    simp [findLinkMatch] at h

/-- Link substitution (docx2ascii.ts line 147): bracketed text followed by
a parenthesized url becomes the link macro. -/
def linksSub : List Char → List Char
  | '[' :: rest =>
    match h : findLinkMatch rest with
    | some ((t, u), r) => "link:".data ++ u ++ '[' :: t ++ ']' :: linksSub r
    | none => '[' :: linksSub rest
  | c :: rest => c :: linksSub rest
  | [] => []
termination_by cs => cs.length
decreasing_by
  · have hs := findLinkMatch_spec rest t u r h
    have : rest.length = t.length + (u.length + (r.length + 3)) := by
      rw [hs]; simp only [List.length_append, List.length_cons]; omega
    simp only [List.length_cons]
    omega
  · simp only [List.length_cons]
    omega
  · simp only [List.length_cons]
    omega

/-- Ordered list substitution (docx2ascii.ts line 150), per line: a run of
digits, a period, whitespace and text becomes a dot list item. -/
def convertOrderedLine (line : List Char) : List Char :=
  if line.takeWhile Char.isDigit = [] then line
  else
    match line.dropWhile Char.isDigit with
    | '.' :: rest =>
      match splitWsContent rest with
      | some (_, content) => '.' :: ' ' :: content
      | none => line
    | _ => line

/-- Model of markdownToAsciidoc (docx2ascii.ts lines 114-153): the nine
substitutions applied in source order over the whole text. -/
def markdownToAsciidoc (opts : DocxToAsciidocOptions) (markdown : String) : String :=
  let s1 := mapLines (convertHeaderLine (opts.headingLevel.getD 0)) markdown.data
  let s2 := boldSub s1
  let s3 := italicSub s2
  let s4 := fenceLangSub s3
  let s5 := fencePlainSub s4
  let s6 := inlineCodeSub s5
  let s7 := mapLines convertQuoteLine s6
  let s8 := linksSub s7
  let s9 := mapLines convertOrderedLine s8
  ⟨s9⟩

/-! ### Post-processing stage (postProcessAsciidoc, docx2ascii.ts 162-208) -/

/-- Whitespace as matched by the JavaScript regex whitespace class,
newline included; unicode space characters are not used by any input
considered here. -/
def isJsWhitespace (c : Char) : Bool :=
  c == ' ' || c == '\t' || c == '\n' || c == '\r' || c == '\x0b' || c == '\x0c'

/-- Character class of the first capture of the line-break cleanup regex
of docx2ascii.ts line 201: any character other than the four block markers
and newline. -/
def isJoin1 (c : Char) : Bool :=
  !(c == '=' || c == '-' || c == '*' || c == '.' || c == '\n')

/-- Character class of the second capture of the line-break cleanup regex
of docx2ascii.ts line 201: additionally excludes whitespace. -/
def isJoin2 (c : Char) : Bool :=
  isJoin1 c && !isJsWhitespace c

/-- Global replace of docx2ascii.ts line 201: a character of the first
class, a newline and a character of the second class are rewritten to the
two characters joined by a single space; scanning continues after the
consumed second character. -/
def collapseLines : List Char → List Char
  | a :: '\n' :: b :: rest =>
    if isJoin1 a && isJoin2 b then a :: ' ' :: b :: collapseLines rest
    else a :: collapseLines ('\n' :: b :: rest)
  | a :: rest => a :: collapseLines rest
  | [] => []

/-- Global replace of docx2ascii.ts line 205: the pattern of a cell
delimiter, a newline and a cell delimiter is replaced by itself. -/
def fixTableCells : List Char → List Char
  | '|' :: '\n' :: '|' :: rest => '|' :: '\n' :: '|' :: fixTableCells rest
  | a :: rest => a :: fixTableCells rest
  | [] => []

/-- Whether a line matches the heading pattern of the attribute-insertion
replace of docx2ascii.ts line 195: one or more equals signs, whitespace,
then at least one character (when the remainder is whitespace only, the
regex backtracks and still matches with the last character as text). -/
def matchesHeadingLine (line : List Char) : Bool :=
  decide (line.takeWhile (· == '=') ≠ []) &&
    (match line.dropWhile (· == '=') with
     | c :: _ :: _ => isSpTab c
     | _ => false)

/-- The attribute block built by postProcessAsciidoc (docx2ascii.ts lines
175-192), one entry per emitted line, in emission order. -/
def attributesLines (opts : DocxToAsciidocOptions) : List (List Char) :=
  ["Author Name <author@example.com>".data, ":toc: left".data, ":icons: font".data,
    ":source-highlighter: highlight.js".data]
  ++ opts.attributes.map (fun kv => (":" ++ kv.1 ++ ": " ++ kv.2).data)
  ++ (if opts.includeToc then [":toc:".data, ":toclevels: 3".data] else [])

/-- Single (non-global) replace of the first heading-matching line by
itself followed by the attribute block; the trailing newline of the block
plus the newline already after the heading line yield an empty line. -/
def insertAttrLines (attrs : List (List Char)) : List (List Char) → List (List Char)
  | [] => []
  | l :: ls =>
    if matchesHeadingLine l then l :: (attrs ++ [] :: ls)
    else l :: insertAttrLines attrs ls

/-- Default title injection of docx2ascii.ts lines 169-171: when the text
does not start with an equals sign, a default document title line and a
blank line are prepended. -/
def injectTitle (cs : List Char) : List Char :=
  match cs with
  | '=' :: _ => cs
  | _ => "= Document Title\n\n".data ++ cs

/-- Model of postProcessAsciidoc (docx2ascii.ts lines 162-208): default
title injection when the text does not start with an equals sign, optional
attribute insertion after the first heading line, optional line-break
collapsing, and the (identity) table-cell fix. -/
def postProcessAsciidoc (opts : DocxToAsciidocOptions) (asciidoc : String) : String :=
  let r1 := injectTitle asciidoc.data
  let r2 := if opts.includeAttributes then
      joinLines (insertAttrLines (attributesLines opts) (splitLines r1))
    else r1
  let r3 := if opts.preserveLineBreaks then r2 else collapseLines r2
  ⟨fixTableCells r3⟩

theorem injectTitle_eq (r : List Char) : injectTitle ('=' :: r) = '=' :: r := rfl

theorem injectTitle_ne (a : Char) (r : List Char) (ha : a ≠ '=') :
    injectTitle (a :: r) = "= Document Title\n\n".data ++ (a :: r) := by
  unfold injectTitle
  split
  · rename_i tail heq
    rw [List.cons.injEq] at heq
    exact absurd heq.1 ha
  · rfl

theorem fixTableCells_id (cs : List Char) : fixTableCells cs = cs := by
  induction cs using fixTableCells.induct <;> simp_all [fixTableCells]

theorem collapseLines_newline_head (rest : List Char) :
    collapseLines ('\n' :: rest) = '\n' :: collapseLines rest := by
  rw [collapseLines.eq_def]
  split
  · rename_i a b rest2 heq
    rw [List.cons.injEq] at heq
    obtain ⟨h1, h2⟩ := heq
    subst h1
    rw [if_neg (by simp [isJoin1]), h2]
  · rename_i a rest2 hno heq
    rw [List.cons.injEq] at heq
    obtain ⟨h1, h2⟩ := heq
    subst h1
    rw [h2]
  all_goals (rename_i heq; exact absurd heq (by simp))

theorem collapseLines_step_ne (a b : Char) (rest : List Char) (hb : b ≠ '\n') :
    collapseLines (a :: b :: rest) = a :: collapseLines (b :: rest) := by
  rw [collapseLines.eq_def]
  split
  · rename_i a2 b2 rest2 heq
    rw [List.cons.injEq] at heq
    obtain ⟨h1, h2⟩ := heq
    rw [List.cons.injEq] at h2
    exact absurd h2.1 hb
  · rename_i a2 rest2 hno heq
    rw [List.cons.injEq] at heq
    obtain ⟨h1, h2⟩ := heq
    subst h1
    rw [← h2]
  all_goals (rename_i heq; exact absurd heq (by simp))

theorem collapseLines_nojoin_step (a b : Char) (rest : List Char)
    (hc : (isJoin1 a && isJoin2 b) = false) :
    collapseLines (a :: '\n' :: b :: rest) = a :: collapseLines ('\n' :: b :: rest) := by
  rw [collapseLines.eq_def]
  split
  · rename_i a2 b2 rest2 heq
    simp only [List.cons.injEq] at heq
    obtain ⟨h1, -, h3, h4⟩ := heq
    subst h1
    subst h3
    subst h4
    rw [if_neg (by simp [hc])]
  · rename_i a2 rest2 hno heq
    rw [List.cons.injEq] at heq
    obtain ⟨h1, h2⟩ := heq
    exact (hno b rest h2.symm).elim
  all_goals (rename_i heq; exact absurd heq (by simp))

theorem collapseLines_join_step (a b : Char) (rest : List Char)
    (ha : isJoin1 a = true) (hb : isJoin2 b = true) :
    collapseLines (a :: '\n' :: b :: rest) = a :: ' ' :: b :: collapseLines rest := by
  rw [collapseLines.eq_def]
  split
  · rename_i a2 b2 rest2 heq
    simp only [List.cons.injEq] at heq
    obtain ⟨h1, -, h3, h4⟩ := heq
    subst h1
    subst h3
    subst h4
    rw [if_pos (by simp [ha, hb])]
  · rename_i a2 rest2 hno heq
    rw [List.cons.injEq] at heq
    obtain ⟨h1, h2⟩ := heq
    exact (hno b rest h2.symm).elim
  all_goals (rename_i heq; exact absurd heq (by simp))

theorem collapseLines_no_newline (xs : List Char) (h : '\n' ∉ xs) :
    collapseLines xs = xs := by
  induction xs using collapseLines.induct with
  | case1 a b rest hcond => exact absurd (by simp) h
  | case2 a b rest hcond ih => exact absurd (by simp) h
  | case3 a rest hshape ih =>
    cases rest with
    | nil => rfl
    | cons b rest2 =>
      have hb : b ≠ '\n' :=
        fun hcc => h (List.mem_cons_of_mem _ (hcc ▸ List.mem_cons_self _ _))
      rw [collapseLines_step_ne a b rest2 hb,
        ih (fun hm => h (List.mem_cons_of_mem _ hm))]
  | case4 => rfl

theorem collapseLines_blank_barrier (xs ys : List Char) (hx : '\n' ∉ xs) :
    collapseLines (xs ++ '\n' :: '\n' :: ys) = xs ++ '\n' :: '\n' :: collapseLines ys := by
  induction xs with
  | nil =>
    simp only [List.nil_append]
    rw [collapseLines_newline_head, collapseLines_newline_head]
  | cons x xs' ih =>
    have hxs' : '\n' ∉ xs' := fun hm => hx (List.mem_cons_of_mem _ hm)
    cases xs' with
    | nil =>
      simp only [List.cons_append, List.nil_append]
      rw [collapseLines_nojoin_step x '\n' ys (by simp [isJoin2, isJoin1])]
      rw [collapseLines_newline_head, collapseLines_newline_head]
    | cons x2 xs'' =>
      have hx2 : x2 ≠ '\n' := fun hcc => hxs' (hcc ▸ List.mem_cons_self _ _)
      simp only [List.cons_append]
      rw [collapseLines_step_ne x x2 _ hx2]
      have hih := ih hxs'
      simp only [List.cons_append] at hih
      rw [hih]

theorem collapseLines_join (A : List Char) (b : Char) (B : List Char)
    (hA : '\n' ∉ A) (hAne : A ≠ [])
    (hlast : ∀ c, A.getLast? = some c → isJoin1 c = true)
    (hb : isJoin2 b = true) (hB : '\n' ∉ B) :
    collapseLines (A ++ '\n' :: b :: B) = A ++ ' ' :: b :: B := by
  induction A with
  | nil => exact absurd rfl hAne
  | cons a A' ih =>
    cases A' with
    | nil =>
      simp only [List.cons_append, List.nil_append]
      rw [collapseLines_join_step a b B (hlast a (by simp)) hb,
        collapseLines_no_newline B hB]
    | cons a2 A'' =>
      have ha2 : a2 ≠ '\n' :=
        fun hcc => hA (List.mem_cons_of_mem _ (hcc ▸ List.mem_cons_self _ _))
      simp only [List.cons_append]
      rw [collapseLines_step_ne a a2 _ ha2]
      have hih := ih (fun hm => hA (List.mem_cons_of_mem _ hm)) (by simp)
        (fun c hcc => hlast c (by rw [List.getLast?_cons_cons]; exact hcc))
      simp only [List.cons_append] at hih
      rw [hih]

theorem insertAttrLines_split (attrs : List (List Char)) (pre : List (List Char))
    (H : List Char) (post : List (List Char))
    (hpre : ∀ l ∈ pre, matchesHeadingLine l = false)
    (hH : matchesHeadingLine H = true) :
    insertAttrLines attrs (pre ++ H :: post) = pre ++ H :: (attrs ++ [] :: post) := by
  induction pre with
  | nil => simp [insertAttrLines, hH]
  | cons p pre' ih =>
    have hp := hpre p (List.mem_cons_self _ _)
    have hih := ih (fun l hl => hpre l (List.mem_cons_of_mem _ hl))
    simp only [List.cons_append, insertAttrLines, hp, Bool.false_eq_true, if_false,
      List.append_eq]
    simp only [List.append_eq] at hih
    rw [hih]

/-- Counterexample to claim C2 as stated.  The stated join policy is
keyed on how a line starts; the code joins on the last character of the
previous line and the first of the next.  First input: the line starting
with an equals sign is joined by the code although the stated policy
excludes it.  Second input: two plain-text lines that the stated policy
joins are left apart by the code because the first ends in a period. -/
theorem C2_join_policy_cex :
    postProcessAsciidoc { preserveLineBreaks := false } "= T abc\ndef"
        = "= T abc def"
      ∧ postProcessAsciidoc { preserveLineBreaks := false } "= T\n\nab.\ncd"
        = "= T\n\nab.\ncd" := by
  constructor <;> rfl

/-- Claim C2 as amended: when preserveLineBreaks is false, a newline is
replaced by a single space exactly by the policy of the code: the
previous line ends in a character other than the block markers and the
next line begins with a character other than the block markers and
whitespace; two consecutive plain-text lines of this shape are joined.
When preserveLineBreaks is true the newline is preserved. -/
theorem C2_join_policy (A B : List Char)
    (hAne : A ≠ []) (hBne : B ≠ []) (hAnl : '\n' ∉ A) (hBnl : '\n' ∉ B)
    (hhead : ∀ c, A.head? = some c → c ≠ '=')
    (hlast : ∀ c, A.getLast? = some c → isJoin1 c = true)
    (hBhead : ∀ c, B.head? = some c → isJoin2 c = true) :
    (postProcessAsciidoc { preserveLineBreaks := false } ⟨A ++ '\n' :: B⟩).data
        = "= Document Title\n\n".data ++ A ++ ' ' :: B
      ∧ (postProcessAsciidoc { preserveLineBreaks := true } ⟨A ++ '\n' :: B⟩).data
        = "= Document Title\n\n".data ++ A ++ '\n' :: B := by
  cases A with
  | nil => exact absurd rfl hAne
  | cons a A' =>
    cases B with
    | nil => exact absurd rfl hBne
    | cons b B' =>
      have ha : a ≠ '=' := hhead a rfl
      have hit := injectTitle_ne a (A' ++ '\n' :: b :: B') ha
      have hinj : (postProcessAsciidoc { preserveLineBreaks := false }
            ⟨(a :: A') ++ '\n' :: b :: B'⟩).data
          = fixTableCells (collapseLines (injectTitle (a :: (A' ++ '\n' :: b :: B')))) := rfl
      have hinj2 : (postProcessAsciidoc { preserveLineBreaks := true }
            ⟨(a :: A') ++ '\n' :: b :: B'⟩).data
          = fixTableCells (injectTitle (a :: (A' ++ '\n' :: b :: B'))) := rfl
      constructor
      · rw [hinj, hit]
        rw [show "= Document Title\n\n".data ++ (a :: (A' ++ '\n' :: b :: B'))
            = "= Document Title".data ++ '\n' :: '\n' :: ((a :: A') ++ '\n' :: b :: B')
            from rfl]
        rw [collapseLines_blank_barrier _ _ (by decide)]
        rw [collapseLines_join (a :: A') b B' hAnl (by simp) hlast
          (hBhead b rfl) (fun hm => hBnl (List.mem_cons_of_mem _ hm))]
        rw [fixTableCells_id]
        rfl
      · rw [hinj2, hit, fixTableCells_id]
        rfl

/-- Witness for amended C2 at two short plain-text lines. -/
theorem C2_join_policy_witness :
    (postProcessAsciidoc { preserveLineBreaks := false } ⟨"ab".data ++ '\n' :: "cd".data⟩).data
        = "= Document Title\n\n".data ++ "ab".data ++ ' ' :: "cd".data
      ∧ (postProcessAsciidoc { preserveLineBreaks := true } ⟨"ab".data ++ '\n' :: "cd".data⟩).data
        = "= Document Title\n\n".data ++ "ab".data ++ '\n' :: "cd".data :=
  C2_join_policy "ab".data "cd".data (by decide) (by decide) (by decide) (by decide)
    (by decide) (by decide) (by decide)

/-- Counterexample to claim C7 as stated: with includeAttributes true,
the given attribute map and line-break preservation disabled (its default),
the collapse step joins the inserted attribute lines into the heading
line, so the output does not contain the literal line of the author
attribute; the attribute text survives only inside the joined line. -/
theorem C7_attributes_cex :
    ((splitLines (postProcessAsciidoc
        { includeAttributes := true,
          attributes := [("author", "A"), ("email", "b@x.com")],
          preserveLineBreaks := false }
        "= T\n\nhello").data).contains (":author: A".data)) = false
      ∧ (":author: A".data <:+: (postProcessAsciidoc
        { includeAttributes := true,
          attributes := [("author", "A"), ("email", "b@x.com")],
          preserveLineBreaks := false }
        "= T\n\nhello").data) := by
  constructor <;> decide

/-- Claim C7 as amended: with includeAttributes true, the attribute map
of author A and email b@x.com, and preserveLineBreaks true, the output of
post-processing contains the literal lines of the author and email
attributes positioned after the first heading line. -/
theorem C7_attributes (s : String) (b : Bool) (hl : Option Nat) (cbs : Option String)
    (pre post : List (List Char)) (H : List Char)
    (hsplit : splitLines s.data = pre ++ H :: post)
    (hpre : ∀ l ∈ pre, matchesHeadingLine l = false)
    (hH : matchesHeadingLine H = true)
    (hstart : ∃ r, s.data = '=' :: r) :
    splitLines ((postProcessAsciidoc
        { headingLevel := hl, includeAttributes := true,
          attributes := [("author", "A"), ("email", "b@x.com")],
          preserveLineBreaks := true, codeBlockStyle := cbs, includeToc := b } s).data)
      = pre ++ H :: ("Author Name <author@example.com>".data :: ":toc: left".data
          :: ":icons: font".data :: ":source-highlighter: highlight.js".data
          :: ":author: A".data :: ":email: b@x.com".data
          :: ((if b then [":toc:".data, ":toclevels: 3".data] else []) ++ [] :: post)) := by
  obtain ⟨r0, hr0⟩ := hstart
  have hattrs : attributesLines
      { headingLevel := hl, includeAttributes := true,
        attributes := [("author", "A"), ("email", "b@x.com")],
        preserveLineBreaks := true, codeBlockStyle := cbs, includeToc := b }
      = ["Author Name <author@example.com>".data, ":toc: left".data, ":icons: font".data,
          ":source-highlighter: highlight.js".data, ":author: A".data, ":email: b@x.com".data]
        ++ (if b then [":toc:".data, ":toclevels: 3".data] else []) := by
    simp [attributesLines]
  have hmain : (postProcessAsciidoc
        { headingLevel := hl, includeAttributes := true,
          attributes := [("author", "A"), ("email", "b@x.com")],
          preserveLineBreaks := true, codeBlockStyle := cbs, includeToc := b } s).data
      = joinLines (pre ++ H :: (attributesLines
          { headingLevel := hl, includeAttributes := true,
            attributes := [("author", "A"), ("email", "b@x.com")],
            preserveLineBreaks := true, codeBlockStyle := cbs, includeToc := b }
          ++ [] :: post)) := by
    have hstep : (postProcessAsciidoc
          { headingLevel := hl, includeAttributes := true,
            attributes := [("author", "A"), ("email", "b@x.com")],
            preserveLineBreaks := true, codeBlockStyle := cbs, includeToc := b } s).data
        = fixTableCells (joinLines (insertAttrLines (attributesLines
            { headingLevel := hl, includeAttributes := true,
              attributes := [("author", "A"), ("email", "b@x.com")],
              preserveLineBreaks := true, codeBlockStyle := cbs, includeToc := b })
            (splitLines (injectTitle s.data)))) := rfl
    rw [hstep, hr0, injectTitle_eq, ← hr0, hsplit,
      insertAttrLines_split _ _ _ _ hpre hH, fixTableCells_id]
  rw [hmain, hattrs]
  have hnl : ∀ l ∈ pre ++ H :: ((["Author Name <author@example.com>".data,
      ":toc: left".data, ":icons: font".data, ":source-highlighter: highlight.js".data,
      ":author: A".data, ":email: b@x.com".data]
        ++ (if b then [":toc:".data, ":toclevels: 3".data] else [])) ++ [] :: post),
      '\n' ∉ l := by
    intro l hlm
    have hsrc := splitLines_no_newline s.data
    rw [hsplit] at hsrc
    rcases List.mem_append.mp hlm with hm | hm
    · exact hsrc l (List.mem_append.mpr (Or.inl hm))
    · rcases List.mem_cons.mp hm with hm1 | hm1
      · exact hsrc l (hm1 ▸ List.mem_append.mpr (Or.inr (List.mem_cons_self _ _)))
      · rcases List.mem_append.mp hm1 with hm2 | hm2
        · rcases List.mem_append.mp hm2 with hm3 | hm3
          · fin_cases hm3 <;> decide
          · cases b
            · simp at hm3
            · fin_cases hm3 <;> decide
        · rcases List.mem_cons.mp hm2 with hm3 | hm3
          · simp [hm3]
          · exact hsrc l (List.mem_append.mpr (Or.inr (List.mem_cons_of_mem _ hm3)))
  rw [splitLines_joinLines _ (by simp) hnl]
  simp

/-- Witness for amended C7 at a two-line document. -/
theorem C7_attributes_witness :
    splitLines ((postProcessAsciidoc
        { headingLevel := none, includeAttributes := true,
          attributes := [("author", "A"), ("email", "b@x.com")],
          preserveLineBreaks := true, codeBlockStyle := none, includeToc := false }
        "= T\nbody").data)
      = ["= T".data, "Author Name <author@example.com>".data, ":toc: left".data,
          ":icons: font".data, ":source-highlighter: highlight.js".data,
          ":author: A".data, ":email: b@x.com".data, [], "body".data] := by
  have h := C7_attributes "= T\nbody" false none none [] ["body".data] "= T".data
    (by decide) (by simp) (by decide) ⟨" T\nbody".data, by decide⟩
  simpa using h

/-! ### Code fences through the whole conversion (claim C3) -/

/-- Characters of a plain code line: letters, digits and spaces.  Such
content triggers none of the other substitutions of the chain. -/
def plainChar (c : Char) : Bool := c.isAlphanum || c == ' '

/-- A block of code lines, each with its trailing newline. -/
def linesBlock : List (List Char) → List Char
  | [] => []
  | l :: ls => l ++ '\n' :: linesBlock ls

/-- Steps 4 and 5 of convertDocxToAsciidoc (docx2ascii.ts lines 84-87):
the Markdown to AsciiDoc rewrite followed by post-processing.  Steps 1-3
(DOCX to HTML to Markdown) live in external libraries. -/
def convertDocument (opts : DocxToAsciidocOptions) (markdown : String) : String :=
  postProcessAsciidoc opts (markdownToAsciidoc opts markdown)

theorem plainChar_not_special (c : Char) (h : plainChar c = true) :
    c ≠ '`' ∧ c ≠ '*' ∧ c ≠ '(' ∧ c ≠ '.' ∧ c ≠ '>' ∧ c ≠ '#' ∧ c ≠ '\n' ∧ c ≠ '_' ∧ c ≠ '[' := by
  simp only [plainChar, Bool.or_eq_true, beq_iff_eq] at h
  rcases h with h | h
  · refine ⟨?_, ?_, ?_, ?_, ?_, ?_, ?_, ?_, ?_⟩ <;>
      exact fun he => absurd h (by subst he; decide)
  · subst h
    refine ⟨?_, ?_, ?_, ?_, ?_, ?_, ?_, ?_, ?_⟩ <;> decide

theorem isAlphanum_not_special (c : Char) (h : c.isAlphanum = true) :
    c ≠ '`' ∧ c ≠ '\n' ∧ c ≠ '(' ∧ c ≠ '.' ∧ c ≠ '*' ∧ c ≠ '_' ∧ c ≠ '[' ∧ isWordChar c = true := by
  refine ⟨?_, ?_, ?_, ?_, ?_, ?_, ?_, by simp [isWordChar, h]⟩ <;>
    exact fun he => absurd h (by subst he; decide)

theorem mem_linesBlock {c : Char} {L : List (List Char)} (h : c ∈ linesBlock L) :
    c = '\n' ∨ ∃ l ∈ L, c ∈ l := by
  induction L with
  | nil => simp [linesBlock] at h
  | cons l ls ih =>
    simp only [linesBlock] at h
    rcases List.mem_append.mp h with h1 | h1
    · exact Or.inr ⟨l, List.mem_cons_self _ _, h1⟩
    · rcases List.mem_cons.mp h1 with h2 | h2
      · exact Or.inl h2
      · rcases ih h2 with h3 | ⟨l2, hl2, hc2⟩
        · exact Or.inl h3
        · exact Or.inr ⟨l2, List.mem_cons_of_mem _ hl2, hc2⟩

theorem linesBlock_no_newline_lines {L : List (List Char)}
    (h : ∀ l ∈ L, ∀ c ∈ l, plainChar c = true) : ∀ l ∈ L, '\n' ∉ l := by
  intro l hl hm
  exact absurd rfl (plainChar_not_special '\n' (h l hl '\n' hm)).2.2.2.2.2.2.1

theorem splitLines_linesBlock_append (L : List (List Char)) (ys : List Char)
    (h : ∀ l ∈ L, '\n' ∉ l) :
    splitLines (linesBlock L ++ ys) = L ++ splitLines ys := by
  induction L with
  | nil => rfl
  | cons l ls ih =>
    have : linesBlock (l :: ls) ++ ys = l ++ '\n' :: (linesBlock ls ++ ys) := by
      simp [linesBlock]
    rw [this, splitLines_line_append _ _ (h l (List.mem_cons_self _ _)),
      ih (fun x hx => h x (List.mem_cons_of_mem _ hx))]
    rfl

theorem map_self {f : List Char → List Char} {L : List (List Char)}
    (h : ∀ l ∈ L, f l = l) : L.map f = L := by
  induction L with
  | nil => rfl
  | cons l ls ih =>
    simp only [List.map_cons, h l (List.mem_cons_self _ _),
      ih (fun x hx => h x (List.mem_cons_of_mem _ hx))]

theorem mapLines_id {f : List Char → List Char} {cs : List Char}
    (h : ∀ l ∈ splitLines cs, f l = l) : mapLines f cs = cs := by
  unfold mapLines
  rw [map_self h, joinLines_splitLines]

theorem convertHeaderLine_id (off : Nat) (line : List Char)
    (h : line.takeWhile (· == '#') = []) : convertHeaderLine off line = line := by
  unfold convertHeaderLine
  rw [h]
  simp

theorem convertQuoteLine_id (line : List Char)
    (h : ∀ c, line.head? = some c → c ≠ '>') : convertQuoteLine line = line := by
  unfold convertQuoteLine
  split
  · rename_i rest2
    exact absurd rfl (h '>' rfl)
  · rfl

theorem mem_of_mem_dropWhile {c : Char} {p : Char → Bool} :
    ∀ {l : List Char}, c ∈ l.dropWhile p → c ∈ l := by
  intro l
  induction l with
  | nil => simp
  | cons a l2 ih =>
    rw [List.dropWhile_cons]
    split
    · intro hm
      exact List.mem_cons_of_mem _ (ih hm)
    · exact id

theorem convertOrderedLine_id (line : List Char) (h : '.' ∉ line) :
    convertOrderedLine line = line := by
  unfold convertOrderedLine
  split
  · rfl
  · split
    · rename_i rest heq
      exfalso
      exact h (mem_of_mem_dropWhile (heq ▸ List.mem_cons_self '.' rest))
    · rfl

theorem takeWhile_eq_nil_of_head {p : Char → Bool} (line : List Char)
    (h : ∀ c, line.head? = some c → p c = false) : line.takeWhile p = [] := by
  cases line with
  | nil => rfl
  | cons c rest => simp [List.takeWhile_cons, h c rfl]

theorem boldSub_cons_ne (c : Char) (rest : List Char) (hc : c ≠ '*') :
    boldSub (c :: rest) = c :: boldSub rest := by
  rw [boldSub.eq_def]
  split
  · rename_i rest2 heq
    rw [List.cons.injEq] at heq
    exact absurd heq.1 hc
  · rename_i c2 rest2 heq
    rw [List.cons.injEq] at heq
    obtain ⟨h1, h2⟩ := heq
    subst h1
    rw [← h2]
  · rename_i heq
    exact absurd heq (by simp)

theorem boldSub_id (cs : List Char) (h : ∀ c ∈ cs, c ≠ '*') : boldSub cs = cs := by
  induction cs with
  | nil => rw [boldSub.eq_def]
  | cons c rest ih =>
    rw [boldSub_cons_ne c rest (h c (List.mem_cons_self _ _)),
      ih (fun x hx => h x (List.mem_cons_of_mem _ hx))]

theorem italicSub_cons_ne (c : Char) (rest : List Char) (hc : c ≠ '_') :
    italicSub (c :: rest) = c :: italicSub rest := by
  rw [italicSub.eq_def]
  split
  · rename_i rest2 heq
    rw [List.cons.injEq] at heq
    exact absurd heq.1 hc
  · rename_i c2 rest2 heq
    rw [List.cons.injEq] at heq
    obtain ⟨h1, h2⟩ := heq
    subst h1
    rw [← h2]
  · rename_i heq
    exact absurd heq (by simp)

theorem italicSub_id (cs : List Char) (h : ∀ c ∈ cs, c ≠ '_') : italicSub cs = cs := by
  induction cs with
  | nil => rw [italicSub.eq_def]
  | cons c rest ih =>
    rw [italicSub_cons_ne c rest (h c (List.mem_cons_self _ _)),
      ih (fun x hx => h x (List.mem_cons_of_mem _ hx))]

theorem fenceLangSub_cons_ne (c : Char) (rest : List Char) (hc : c ≠ '`') :
    fenceLangSub (c :: rest) = c :: fenceLangSub rest := by
  rw [fenceLangSub.eq_def]
  split
  · rename_i rest2 heq
    rw [List.cons.injEq] at heq
    exact absurd heq.1 hc
  · rename_i c2 rest2 heq
    rw [List.cons.injEq] at heq
    obtain ⟨h1, h2⟩ := heq
    subst h1
    rw [← h2]
  · rename_i heq
    exact absurd heq (by simp)

theorem fenceLangSub_id (cs : List Char) (h : ∀ c ∈ cs, c ≠ '`') :
    fenceLangSub cs = cs := by
  induction cs with
  | nil => rw [fenceLangSub.eq_def]
  | cons c rest ih =>
    rw [fenceLangSub_cons_ne c rest (h c (List.mem_cons_self _ _)),
      ih (fun x hx => h x (List.mem_cons_of_mem _ hx))]

theorem fenceLangSub_append (xs ys : List Char) (h : ∀ c ∈ xs, c ≠ '`') :
    fenceLangSub (xs ++ ys) = xs ++ fenceLangSub ys := by
  induction xs with
  | nil => rfl
  | cons c rest ih =>
    rw [List.cons_append, fenceLangSub_cons_ne c _ (h c (List.mem_cons_self _ _)),
      ih (fun x hx => h x (List.mem_cons_of_mem _ hx))]
    rfl

theorem fencePlainSub_cons_ne (c : Char) (rest : List Char) (hc : c ≠ '`') :
    fencePlainSub (c :: rest) = c :: fencePlainSub rest := by
  rw [fencePlainSub.eq_def]
  split
  · rename_i rest2 heq
    rw [List.cons.injEq] at heq
    exact absurd heq.1 hc
  · rename_i c2 rest2 heq
    rw [List.cons.injEq] at heq
    obtain ⟨h1, h2⟩ := heq
    subst h1
    rw [← h2]
  · rename_i heq
    exact absurd heq (by simp)

theorem fencePlainSub_id (cs : List Char) (h : ∀ c ∈ cs, c ≠ '`') :
    fencePlainSub cs = cs := by
  induction cs with
  | nil => rw [fencePlainSub.eq_def]
  | cons c rest ih =>
    rw [fencePlainSub_cons_ne c rest (h c (List.mem_cons_self _ _)),
      ih (fun x hx => h x (List.mem_cons_of_mem _ hx))]

theorem inlineCodeSub_cons_ne (c : Char) (rest : List Char) (hc : c ≠ '`') :
    inlineCodeSub (c :: rest) = c :: inlineCodeSub rest := by
  rw [inlineCodeSub.eq_def]
  split
  · rename_i rest2 heq
    rw [List.cons.injEq] at heq
    exact absurd heq.1 hc
  · rename_i x r hsh hne
    rw [List.cons.injEq] at hne
    obtain ⟨h1, h2⟩ := hne
    subst h1
    rw [← h2]
  · rename_i heq
    exact absurd heq (by simp)

theorem inlineCodeSub_id (cs : List Char) (h : ∀ c ∈ cs, c ≠ '`') :
    inlineCodeSub cs = cs := by
  induction cs with
  | nil => rw [inlineCodeSub.eq_def]
  | cons c rest ih =>
    rw [inlineCodeSub_cons_ne c rest (h c (List.mem_cons_self _ _)),
      ih (fun x hx => h x (List.mem_cons_of_mem _ hx))]

theorem findLinkMatch_none (cs : List Char) (h : ∀ c ∈ cs, c ≠ '(') :
    findLinkMatch cs = none := by
  induction cs using findLinkMatch.induct with
  | case1 rest u r hp =>
    exact absurd rfl (h '(' (List.mem_cons_of_mem _ (List.mem_cons_self _ _)))
  | case2 rest hp ih =>
    exact absurd rfl (h '(' (List.mem_cons_of_mem _ (List.mem_cons_self _ _)))
  | case3 rest => rfl
  | case4 c rest h1 h2 ih =>
    rw [findLinkMatch.eq_def]
    split
    · rename_i rest2 heq
      exact absurd rfl
        (h '(' (heq ▸ List.mem_cons_of_mem _ (List.mem_cons_self _ _)))
    · rename_i heq
      rfl
    · rename_i c2 rest2 hsh heq
      rw [List.cons.injEq] at heq
      obtain ⟨hq1, hq2⟩ := heq
      subst hq1
      rw [← hq2, ih (fun x hx => h x (List.mem_cons_of_mem _ hx))]
      rfl
    · rename_i heq
      exact absurd heq (by simp)
  | case5 => rfl

theorem linksSub_cons_ne (c : Char) (rest : List Char) (hc : c ≠ '[') :
    linksSub (c :: rest) = c :: linksSub rest := by
  rw [linksSub.eq_def]
  split
  · rename_i rest2 heq
    rw [List.cons.injEq] at heq
    exact absurd heq.1 hc
  · rename_i c2 rest2 heq
    rw [List.cons.injEq] at heq
    obtain ⟨h1, h2⟩ := heq
    subst h1
    rw [← h2]
  · rename_i heq
    exact absurd heq (by simp)

theorem linksSub_id (cs : List Char) (h : ∀ c ∈ cs, c ≠ '(') : linksSub cs = cs := by
  induction cs with
  | nil => rw [linksSub.eq_def]
  | cons c rest ih =>
    by_cases hc : c = '['
    · subst hc
      rw [linksSub.eq_def]
      split
      · rename_i v r hfm
        rw [List.cons.injEq] at hfm
        obtain ⟨-, hr⟩ := hfm
        subst hr
        split
        · rename_i t u2 r2 hfm2
          rw [findLinkMatch_none rest (fun x hx => h x (List.mem_cons_of_mem _ hx))] at hfm2
          exact absurd hfm2 (by simp)
        · rw [ih (fun x hx => h x (List.mem_cons_of_mem _ hx))]
      · rename_i c2 rest2 hsh heq
        rw [List.cons.injEq] at heq
        exact (hsh heq.1.symm).elim
      · rename_i heq
        exact absurd heq (by simp)
    · rw [linksSub_cons_ne c rest hc, ih (fun x hx => h x (List.mem_cons_of_mem _ hx))]

theorem findFenceClose_cons_ne (c : Char) (zs : List Char) (hc : c ≠ '`') :
    findFenceClose (c :: zs) = (findFenceClose zs).map (fun p => (c :: p.1, p.2)) := by
  rw [findFenceClose.eq_def]
  split
  · rename_i rest heq
    rw [List.cons.injEq] at heq
    exact absurd heq.1 hc
  · rename_i c2 rest hsh heq
    rw [List.cons.injEq] at heq
    obtain ⟨h1, h2⟩ := heq
    subst h1
    rw [← h2]
  · rename_i heq
    exact absurd heq (by simp)

theorem findFenceClose_block (code ys : List Char) (h : ∀ c ∈ code, c ≠ '`') :
    findFenceClose (code ++ '`' :: '`' :: '`' :: ys) = some (code, ys) := by
  induction code with
  | nil => rfl
  | cons c rest ih =>
    rw [List.cons_append, findFenceClose_cons_ne c _ (h c (List.mem_cons_self _ _)),
      ih (fun x hx => h x (List.mem_cons_of_mem _ hx))]
    rfl

theorem fenceLangSub_two_ticks (x : Char) (rest : List Char) (hx : x ≠ '`') :
    fenceLangSub ('`' :: '`' :: x :: rest) = '`' :: fenceLangSub ('`' :: x :: rest) := by
  rw [fenceLangSub.eq_def]
  split
  · rename_i rest2 heq
    simp only [List.cons.injEq] at heq
    exact absurd heq.2.2.1 hx
  · rename_i c2 rest2 hsh heq
    rw [List.cons.injEq] at heq
    obtain ⟨h1, h2⟩ := heq
    subst h1
    rw [← h2]
  · rename_i heq
    exact absurd heq (by simp)

theorem fenceLangSub_one_tick (x : Char) (rest : List Char) (hx : x ≠ '`') :
    fenceLangSub ('`' :: x :: rest) = '`' :: fenceLangSub (x :: rest) := by
  rw [fenceLangSub.eq_def]
  split
  · rename_i rest2 heq
    simp only [List.cons.injEq] at heq
    exact absurd heq.2.1 hx
  · rename_i c2 rest2 hsh heq
    rw [List.cons.injEq] at heq
    obtain ⟨h1, h2⟩ := heq
    subst h1
    rw [← h2]
  · rename_i heq
    exact absurd heq (by simp)

/-- Evaluation of the tagged-fence substitution on a whole fence. -/
theorem fenceLangSub_block (lang code : List Char) (hne : lang ≠ [])
    (hw : ∀ c ∈ lang, isWordChar c = true) (hcode : ∀ c ∈ code, c ≠ '`') :
    fenceLangSub ('`' :: '`' :: '`' :: (lang ++ '\n' :: (code ++ "```".data)))
      = "[source,".data ++ lang ++ "]\n----\n".data ++ code ++ "----\n".data := by
  have htw := takeWhile_append_eq (p := isWordChar) lang ('\n' :: (code ++ "```".data)) hw
    (by
      intro c hc
      simp only [List.head?_cons, Option.some.injEq] at hc
      subst hc
      decide)
  have hffc : findFenceClose (code ++ "```".data) = some (code, []) :=
    findFenceClose_block code [] hcode
  rw [fenceLangSub.eq_def]
  simp only [htw.1, htw.2, hffc, if_neg hne]
  split
  · rename_i rest2 h1
    rw [show ("```".data : List Char) = ['`', '`', '`'] from rfl] at htw
    rw [htw.2] at h1
    rw [List.cons.injEq] at h1
    obtain ⟨-, h1b⟩ := h1
    subst h1b
    split
    · rename_i code2 rest3 h2
      rw [show ("```".data : List Char) = ['`', '`', '`'] from rfl] at hffc
      rw [hffc] at h2
      rw [Option.some.injEq, Prod.mk.injEq] at h2
      obtain ⟨h2a, h2b⟩ := h2
      subst h2a
      subst h2b
      simp [fenceLangSub]
    · rename_i h2
      rw [show ("```".data : List Char) = ['`', '`', '`'] from rfl] at hffc
      rw [hffc] at h2
      exact absurd h2 (by simp)
  · rename_i h1
    rw [show ("```".data : List Char) = ['`', '`', '`'] from rfl] at htw
    exact absurd htw.2 (by intro hc; exact h1 _ hc)

/-- The tagged-fence substitution leaves an untagged fence unchanged. -/
theorem fenceLangSub_plain_block (code : List Char) (hcode : ∀ c ∈ code, c ≠ '`') :
    fenceLangSub ('`' :: '`' :: '`' :: '\n' :: (code ++ "```".data))
      = '`' :: '`' :: '`' :: '\n' :: (code ++ "```".data) := by
  have h0 : fenceLangSub ('`' :: '`' :: '`' :: '\n' :: (code ++ "```".data))
      = '`' :: fenceLangSub ('`' :: '`' :: '\n' :: (code ++ "```".data)) := by
    rw [fenceLangSub.eq_def]
    split
    · rename_i rest2 heq
      have h4 : '\n' :: (code ++ "```".data) = rest2 := by simpa using heq
      rw [← h4, if_pos (by rw [List.takeWhile_cons, if_neg (by decide)])]
    · rename_i c2 rest2 hsh heq
      rw [List.cons.injEq] at heq
      exact (hsh ('\n' :: (code ++ "```".data)) heq.1.symm heq.2.symm).elim
    · rename_i heq
      exact absurd heq (by simp)
  rw [h0, fenceLangSub_two_ticks '\n' _ (by decide),
    fenceLangSub_one_tick '\n' _ (by decide),
    fenceLangSub_cons_ne '\n' _ (by decide),
    fenceLangSub_append code "```".data hcode,
    show fenceLangSub "```".data = "```".data from by simp [fenceLangSub]]

/-- Evaluation of the untagged-fence substitution on a whole fence. -/
theorem fencePlainSub_block (code : List Char) (hcode : ∀ c ∈ code, c ≠ '`') :
    fencePlainSub ('`' :: '`' :: '`' :: '\n' :: (code ++ "```".data))
      = "----\n".data ++ code ++ "----\n".data := by
  have hffc : findFenceClose (code ++ "```".data) = some (code, []) :=
    findFenceClose_block code [] hcode
  rw [fencePlainSub.eq_def]
  split
  · rename_i rest2 heq
    have h5 : code ++ "```".data = rest2 := by simpa using heq
    subst h5
    split
    · rename_i code2 r h2
      rw [hffc] at h2
      rw [Option.some.injEq, Prod.mk.injEq] at h2
      obtain ⟨h2a, h2b⟩ := h2
      subst h2a
      subst h2b
      simp [fencePlainSub]
    · rename_i h2
      rw [hffc] at h2
      exact absurd h2 (by simp)
  · rename_i c2 rest2 hsh heq
    rw [List.cons.injEq] at heq
    exact (hsh (code ++ "```".data) heq.1.symm heq.2.symm).elim
  · rename_i heq
    exact absurd heq (by simp)

theorem mem_of_head? {c : Char} {l : List Char} (h : l.head? = some c) : c ∈ l := by
  cases l with
  | nil => simp at h
  | cons a t =>
    simp only [List.head?_cons, Option.some.injEq] at h
    subst h
    exact List.mem_cons_self _ _

theorem mem_ticks {c : Char} (h : c ∈ ("```".data : List Char)) : c = '`' := by
  rw [show ("```".data : List Char) = ['`', '`', '`'] from rfl] at h
  simpa using h

theorem convertHeaderLine_id_of_head (off : Nat) (line : List Char)
    (h : ∀ c, line.head? = some c → (c == '#') = false) :
    convertHeaderLine off line = line :=
  convertHeaderLine_id off line (takeWhile_eq_nil_of_head line h)

/-- Evaluation of markdownToAsciidoc on a document that is a single
language-tagged fenced code block with plain content. -/
theorem markdownToAsciidoc_fence_tagged (opts : DocxToAsciidocOptions)
    (lang : List Char) (CL : List (List Char))
    (hne : lang ≠ []) (hlang : ∀ c ∈ lang, c.isAlphanum = true)
    (hCL : ∀ l ∈ CL, ∀ c ∈ l, plainChar c = true) :
    markdownToAsciidoc opts ⟨"```".data ++ lang ++ '\n' :: (linesBlock CL ++ "```".data)⟩
      = ⟨"[source,".data ++ lang ++ "]\n----\n".data ++ linesBlock CL ++ "----\n".data⟩ := by
  have hCLnl : ∀ l ∈ CL, '\n' ∉ l := linesBlock_no_newline_lines hCL
  have hlangnl : '\n' ∉ lang := fun hm => absurd (hlang '\n' hm) (by decide)
  have hLB : ∀ c ∈ linesBlock CL, c = '\n' ∨ plainChar c = true := by
    intro c hc
    rcases mem_linesBlock hc with h | ⟨l, hl, hcl⟩
    · exact Or.inl h
    · exact Or.inr (hCL l hl c hcl)
  -- membership case analysis over the input document
  have hD0 : ∀ c ∈ "```".data ++ lang ++ '\n' :: (linesBlock CL ++ "```".data),
      c = '`' ∨ c = '\n' ∨ c.isAlphanum = true ∨ plainChar c = true := by
    intro c hc
    simp only [List.mem_append, List.mem_cons, List.not_mem_nil, or_false, or_self] at hc
    rcases hc with (h | h) | h | h | h
    · exact Or.inl h
    · exact Or.inr (Or.inr (Or.inl (hlang c h)))
    · exact Or.inr (Or.inl h)
    · rcases hLB c h with h2 | h2
      · exact Or.inr (Or.inl h2)
      · exact Or.inr (Or.inr (Or.inr h2))
    · exact Or.inl h
  -- stage 1: heading substitution leaves every line unchanged
  have hsplit0 : splitLines ("```".data ++ lang ++ '\n' :: (linesBlock CL ++ "```".data))
      = ("```".data ++ lang) :: (CL ++ [("```".data : List Char)]) := by
    rw [splitLines_line_append _ _ (by
      intro hm
      rcases List.mem_append.mp hm with hm1 | hm1
      · exact absurd (mem_ticks hm1) (by decide)
      · exact hlangnl hm1)]
    rw [splitLines_linesBlock_append CL _ hCLnl, splitLines_single "```".data (by decide)]
  have e1 : mapLines (convertHeaderLine (opts.headingLevel.getD 0))
      ("```".data ++ lang ++ '\n' :: (linesBlock CL ++ "```".data))
      = "```".data ++ lang ++ '\n' :: (linesBlock CL ++ "```".data) := by
    apply mapLines_id
    rw [hsplit0]
    intro l hl
    rcases List.mem_cons.mp hl with h | h
    · subst h
      exact convertHeaderLine_id_of_head _ _ (by
        intro c hc
        rw [show (("```".data ++ lang : List Char)).head? = some '`' from rfl] at hc
        rw [Option.some.injEq] at hc
        subst hc
        decide)
    · rcases List.mem_append.mp h with h2 | h2
      · exact convertHeaderLine_id_of_head _ _ (by
          intro c hc
          have := hCL l h2 c (mem_of_head? hc)
          have hn := (plainChar_not_special c this).2.2.2.2.2.1
          exact beq_eq_false_iff_ne.mpr hn)
      · rw [List.mem_singleton.mp h2]
        exact convertHeaderLine_id_of_head _ _ (by
          intro c hc
          rw [show (("```".data : List Char)).head? = some '`' from rfl] at hc
          rw [Option.some.injEq] at hc
          subst hc
          decide)
  -- stages 2 and 3: no star and no underscore occur
  have e2 : boldSub ("```".data ++ lang ++ '\n' :: (linesBlock CL ++ "```".data))
      = "```".data ++ lang ++ '\n' :: (linesBlock CL ++ "```".data) := by
    apply boldSub_id
    intro c hc
    rcases hD0 c hc with h | h | h | h
    · subst h; decide
    · subst h; decide
    · exact (isAlphanum_not_special c h).2.2.2.2.1
    · exact (plainChar_not_special c h).2.1
  have e3 : italicSub ("```".data ++ lang ++ '\n' :: (linesBlock CL ++ "```".data))
      = "```".data ++ lang ++ '\n' :: (linesBlock CL ++ "```".data) := by
    apply italicSub_id
    intro c hc
    rcases hD0 c hc with h | h | h | h
    · subst h; decide
    · subst h; decide
    · exact (isAlphanum_not_special c h).2.2.2.2.2.1
    · exact (plainChar_not_special c h).2.2.2.2.2.2.2.1
  -- stage 4: the fence is rewritten to the source block
  have e4 : fenceLangSub ("```".data ++ lang ++ '\n' :: (linesBlock CL ++ "```".data))
      = "[source,".data ++ lang ++ "]\n----\n".data ++ linesBlock CL ++ "----\n".data := by
    have hLBt : ∀ c ∈ linesBlock CL, c ≠ '`' := by
      intro c hc
      rcases hLB c hc with h | h
      · subst h; decide
      · exact (plainChar_not_special c h).1
    have := fenceLangSub_block lang (linesBlock CL) hne
      (fun c hc => by simp [isWordChar, hlang c hc]) hLBt
    rw [show ("```".data ++ lang ++ '\n' :: (linesBlock CL ++ "```".data) : List Char)
        = '`' :: '`' :: '`' :: (lang ++ '\n' :: (linesBlock CL ++ "```".data)) from by
      simp only [List.append_assoc]
      rfl]
    rw [this]
  -- character facts about the rendered block
  have hD4 : ∀ c ∈ "[source,".data ++ lang ++ "]\n----\n".data
      ++ linesBlock CL ++ "----\n".data, c ≠ '`' ∧ c ≠ '(' := by
    intro c hc
    simp only [List.mem_append, List.mem_cons, List.not_mem_nil, or_false] at hc
    rcases hc with (((h | h) | h) | h) | h
    · rcases h with h | h | h | h | h | h | h | h <;> subst h <;>
        exact ⟨by decide, by decide⟩
    · exact ⟨(isAlphanum_not_special c (hlang c h)).1,
        (isAlphanum_not_special c (hlang c h)).2.2.1⟩
    · rcases h with h | h | h | h | h | h | h <;> subst h <;>
        exact ⟨by decide, by decide⟩
    · rcases hLB c h with h2 | h2
      · subst h2
        exact ⟨by decide, by decide⟩
      · exact ⟨(plainChar_not_special c h2).1, (plainChar_not_special c h2).2.2.1⟩
    · rcases h with h | h | h | h | h <;> subst h <;> exact ⟨by decide, by decide⟩
  have e5 : fencePlainSub ("[source,".data ++ lang ++ "]\n----\n".data
      ++ linesBlock CL ++ "----\n".data)
      = "[source,".data ++ lang ++ "]\n----\n".data ++ linesBlock CL ++ "----\n".data :=
    fencePlainSub_id _ (fun c hc => (hD4 c hc).1)
  have e6 : inlineCodeSub ("[source,".data ++ lang ++ "]\n----\n".data
      ++ linesBlock CL ++ "----\n".data)
      = "[source,".data ++ lang ++ "]\n----\n".data ++ linesBlock CL ++ "----\n".data :=
    inlineCodeSub_id _ (fun c hc => (hD4 c hc).1)
  -- line structure of the rendered block
  have hsplit4 : splitLines ("[source,".data ++ lang ++ "]\n----\n".data
      ++ linesBlock CL ++ "----\n".data)
      = ("[source,".data ++ lang ++ [']']) :: ("----".data : List Char)
        :: (CL ++ [("----".data : List Char), []]) := by
    rw [show ("[source,".data ++ lang ++ "]\n----\n".data
        ++ linesBlock CL ++ "----\n".data : List Char)
        = ("[source,".data ++ lang ++ [']'])
          ++ '\n' :: ("----".data ++ '\n' :: (linesBlock CL ++ "----\n".data)) from by
      simp only [List.append_assoc]
      rfl]
    rw [splitLines_line_append _ _ (by
      intro hm
      simp only [List.append_assoc, List.mem_append, List.mem_cons, List.not_mem_nil,
        or_false] at hm
      rcases hm with h | h | h
      · rcases h with h | h | h | h | h | h | h | h <;> exact absurd h (by decide)
      · exact hlangnl h
      · exact absurd h (by decide))]
    rw [splitLines_line_append _ _ (by decide)]
    rw [splitLines_linesBlock_append CL _ hCLnl]
    rw [show splitLines ("----\n".data) = [("----".data : List Char), []] from rfl]
  -- stages 7 to 9 leave the block unchanged
  have e7 : mapLines convertQuoteLine ("[source,".data ++ lang ++ "]\n----\n".data
      ++ linesBlock CL ++ "----\n".data)
      = "[source,".data ++ lang ++ "]\n----\n".data ++ linesBlock CL ++ "----\n".data := by
    apply mapLines_id
    rw [hsplit4]
    intro l hl
    rcases List.mem_cons.mp hl with h | h
    · subst h
      exact convertQuoteLine_id _ (by
        intro c hc
        rw [show (("[source,".data ++ lang ++ [']'] : List Char)).head? = some '[' from rfl,
          Option.some.injEq] at hc
        subst hc
        decide)
    · rcases List.mem_cons.mp h with h2 | h2
      · subst h2
        exact convertQuoteLine_id _ (by intro c hc; rw [show (("----".data : List Char)).head? = some '-' from rfl, Option.some.injEq] at hc; subst hc; decide)
      · rcases List.mem_append.mp h2 with h3 | h3
        · exact convertQuoteLine_id _ (by
            intro c hc
            have := hCL l h3 c (mem_of_head? hc)
            exact (plainChar_not_special c this).2.2.2.2.1)
        · rcases List.mem_cons.mp h3 with h4 | h4
          · subst h4
            exact convertQuoteLine_id _ (by intro c hc; rw [show (("----".data : List Char)).head? = some '-' from rfl, Option.some.injEq] at hc; subst hc; decide)
          · rw [List.mem_singleton.mp h4]
            exact convertQuoteLine_id _ (by intro c hc; simp at hc)
  have e8 : linksSub ("[source,".data ++ lang ++ "]\n----\n".data
      ++ linesBlock CL ++ "----\n".data)
      = "[source,".data ++ lang ++ "]\n----\n".data ++ linesBlock CL ++ "----\n".data :=
    linksSub_id _ (fun c hc => (hD4 c hc).2)
  have e9 : mapLines convertOrderedLine ("[source,".data ++ lang ++ "]\n----\n".data
      ++ linesBlock CL ++ "----\n".data)
      = "[source,".data ++ lang ++ "]\n----\n".data ++ linesBlock CL ++ "----\n".data := by
    apply mapLines_id
    rw [hsplit4]
    intro l hl
    rcases List.mem_cons.mp hl with h | h
    · subst h
      apply convertOrderedLine_id
      intro hm
      simp only [List.append_assoc, List.mem_append, List.mem_cons, List.not_mem_nil,
        or_false] at hm
      rcases hm with h | h | h
      · rcases h with h | h | h | h | h | h | h | h <;> exact absurd h (by decide)
      · exact absurd (hlang '.' h) (by decide)
      · exact absurd h (by decide)
    · rcases List.mem_cons.mp h with h2 | h2
      · subst h2
        apply convertOrderedLine_id
        decide
      · rcases List.mem_append.mp h2 with h3 | h3
        · apply convertOrderedLine_id
          intro hm
          exact absurd rfl (plainChar_not_special '.' (hCL l h3 '.' hm)).2.2.2.1
        · rcases List.mem_cons.mp h3 with h4 | h4
          · subst h4
            apply convertOrderedLine_id
            decide
          · rw [List.mem_singleton.mp h4]
            apply convertOrderedLine_id
            simp
  rw [show markdownToAsciidoc opts ⟨"```".data ++ lang ++ '\n' :: (linesBlock CL ++ "```".data)⟩
      = ⟨mapLines convertOrderedLine (linksSub (mapLines convertQuoteLine (inlineCodeSub
          (fencePlainSub (fenceLangSub (italicSub (boldSub (mapLines
            (convertHeaderLine (opts.headingLevel.getD 0))
            ("```".data ++ lang ++ '\n' :: (linesBlock CL ++ "```".data))))))))))⟩ from rfl]
  rw [e1, e2, e3, e4, e5, e6, e7, e8, e9]

/-- Evaluation of markdownToAsciidoc on a document that is a single
untagged fenced code block with plain content. -/
theorem markdownToAsciidoc_fence_untagged (opts : DocxToAsciidocOptions)
    (CL : List (List Char))
    (hCL : ∀ l ∈ CL, ∀ c ∈ l, plainChar c = true) :
    markdownToAsciidoc opts ⟨"```\n".data ++ (linesBlock CL ++ "```".data)⟩
      = ⟨"----\n".data ++ linesBlock CL ++ "----\n".data⟩ := by
  have hCLnl : ∀ l ∈ CL, '\n' ∉ l := linesBlock_no_newline_lines hCL
  have hLB : ∀ c ∈ linesBlock CL, c = '\n' ∨ plainChar c = true := by
    intro c hc
    rcases mem_linesBlock hc with h | ⟨l, hl, hcl⟩
    · exact Or.inl h
    · exact Or.inr (hCL l hl c hcl)
  have hLBt : ∀ c ∈ linesBlock CL, c ≠ '`' := by
    intro c hc
    rcases hLB c hc with h | h
    · subst h; decide
    · exact (plainChar_not_special c h).1
  have hD0 : ∀ c ∈ "```\n".data ++ (linesBlock CL ++ "```".data),
      c = '`' ∨ c = '\n' ∨ plainChar c = true := by
    intro c hc
    rcases List.mem_append.mp hc with h | h
    · simp only [List.mem_cons, List.not_mem_nil, or_false] at h
      rcases h with h | h | h | h
      · exact Or.inl h
      · exact Or.inl h
      · exact Or.inl h
      · exact Or.inr (Or.inl h)
    · rcases List.mem_append.mp h with h2 | h2
      · rcases hLB c h2 with h3 | h3
        · exact Or.inr (Or.inl h3)
        · exact Or.inr (Or.inr h3)
      · simp only [List.mem_cons, List.not_mem_nil, or_false] at h2
        rcases h2 with h3 | h3 | h3 <;> exact Or.inl h3
  have hsplit0 : splitLines ("```\n".data ++ (linesBlock CL ++ "```".data))
      = ("```".data : List Char) :: (CL ++ [("```".data : List Char)]) := by
    rw [show ("```\n".data ++ (linesBlock CL ++ "```".data) : List Char)
        = "```".data ++ '\n' :: (linesBlock CL ++ "```".data) from rfl]
    rw [splitLines_line_append _ _ (by decide)]
    rw [splitLines_linesBlock_append CL _ hCLnl, splitLines_single "```".data (by decide)]
  have e1 : mapLines (convertHeaderLine (opts.headingLevel.getD 0))
      ("```\n".data ++ (linesBlock CL ++ "```".data))
      = "```\n".data ++ (linesBlock CL ++ "```".data) := by
    apply mapLines_id
    rw [hsplit0]
    intro l hl
    rcases List.mem_cons.mp hl with h | h
    · subst h
      exact convertHeaderLine_id_of_head _ _ (by
        intro c hc
        rw [show (("```".data : List Char)).head? = some '`' from rfl,
          Option.some.injEq] at hc
        subst hc
        decide)
    · rcases List.mem_append.mp h with h2 | h2
      · exact convertHeaderLine_id_of_head _ _ (by
          intro c hc
          have := hCL l h2 c (mem_of_head? hc)
          exact beq_eq_false_iff_ne.mpr (plainChar_not_special c this).2.2.2.2.2.1)
      · rw [List.mem_singleton.mp h2]
        exact convertHeaderLine_id_of_head _ _ (by
          intro c hc
          rw [show (("```".data : List Char)).head? = some '`' from rfl,
            Option.some.injEq] at hc
          subst hc
          decide)
  have e2 : boldSub ("```\n".data ++ (linesBlock CL ++ "```".data))
      = "```\n".data ++ (linesBlock CL ++ "```".data) := by
    apply boldSub_id
    intro c hc
    rcases hD0 c hc with h | h | h
    · subst h; decide
    · subst h; decide
    · exact (plainChar_not_special c h).2.1
  have e3 : italicSub ("```\n".data ++ (linesBlock CL ++ "```".data))
      = "```\n".data ++ (linesBlock CL ++ "```".data) := by
    apply italicSub_id
    intro c hc
    rcases hD0 c hc with h | h | h
    · subst h; decide
    · subst h; decide
    · exact (plainChar_not_special c h).2.2.2.2.2.2.2.1
  have e4 : fenceLangSub ("```\n".data ++ (linesBlock CL ++ "```".data))
      = "```\n".data ++ (linesBlock CL ++ "```".data) := by
    rw [show ("```\n".data ++ (linesBlock CL ++ "```".data) : List Char)
        = '`' :: '`' :: '`' :: '\n' :: (linesBlock CL ++ "```".data) from rfl]
    exact fenceLangSub_plain_block (linesBlock CL) hLBt
  have e5 : fencePlainSub ("```\n".data ++ (linesBlock CL ++ "```".data))
      = "----\n".data ++ linesBlock CL ++ "----\n".data := by
    rw [show ("```\n".data ++ (linesBlock CL ++ "```".data) : List Char)
        = '`' :: '`' :: '`' :: '\n' :: (linesBlock CL ++ "```".data) from rfl]
    rw [fencePlainSub_block (linesBlock CL) hLBt]
  have hD4 : ∀ c ∈ "----\n".data ++ linesBlock CL ++ "----\n".data,
      c ≠ '`' ∧ c ≠ '(' := by
    intro c hc
    simp only [List.mem_append, List.mem_cons, List.not_mem_nil, or_false] at hc
    rcases hc with (h | h) | h
    · rcases h with h | h | h | h | h <;> subst h <;> exact ⟨by decide, by decide⟩
    · rcases hLB c h with h2 | h2
      · subst h2
        exact ⟨by decide, by decide⟩
      · exact ⟨(plainChar_not_special c h2).1, (plainChar_not_special c h2).2.2.1⟩
    · rcases h with h | h | h | h | h <;> subst h <;> exact ⟨by decide, by decide⟩
  have e6 : inlineCodeSub ("----\n".data ++ linesBlock CL ++ "----\n".data)
      = "----\n".data ++ linesBlock CL ++ "----\n".data :=
    inlineCodeSub_id _ (fun c hc => (hD4 c hc).1)
  have hsplit4 : splitLines ("----\n".data ++ linesBlock CL ++ "----\n".data)
      = ("----".data : List Char) :: (CL ++ [("----".data : List Char), []]) := by
    rw [show ("----\n".data ++ linesBlock CL ++ "----\n".data : List Char)
        = "----".data ++ '\n' :: (linesBlock CL ++ "----\n".data) from rfl]
    rw [splitLines_line_append _ _ (by decide)]
    rw [splitLines_linesBlock_append CL _ hCLnl]
    rw [show splitLines ("----\n".data) = [("----".data : List Char), []] from rfl]
  have e7 : mapLines convertQuoteLine ("----\n".data ++ linesBlock CL ++ "----\n".data)
      = "----\n".data ++ linesBlock CL ++ "----\n".data := by
    apply mapLines_id
    rw [hsplit4]
    intro l hl
    rcases List.mem_cons.mp hl with h | h
    · subst h
      exact convertQuoteLine_id _ (by
        intro c hc
        rw [show (("----".data : List Char)).head? = some '-' from rfl,
          Option.some.injEq] at hc
        subst hc
        decide)
    · rcases List.mem_append.mp h with h3 | h3
      · exact convertQuoteLine_id _ (by
          intro c hc
          exact (plainChar_not_special c (hCL l h3 c (mem_of_head? hc))).2.2.2.2.1)
      · rcases List.mem_cons.mp h3 with h4 | h4
        · subst h4
          exact convertQuoteLine_id _ (by
            intro c hc
            rw [show (("----".data : List Char)).head? = some '-' from rfl,
              Option.some.injEq] at hc
            subst hc
            decide)
        · rw [List.mem_singleton.mp h4]
          exact convertQuoteLine_id _ (by intro c hc; simp at hc)
  have e8 : linksSub ("----\n".data ++ linesBlock CL ++ "----\n".data)
      = "----\n".data ++ linesBlock CL ++ "----\n".data :=
    linksSub_id _ (fun c hc => (hD4 c hc).2)
  have e9 : mapLines convertOrderedLine ("----\n".data ++ linesBlock CL ++ "----\n".data)
      = "----\n".data ++ linesBlock CL ++ "----\n".data := by
    apply mapLines_id
    rw [hsplit4]
    intro l hl
    rcases List.mem_cons.mp hl with h | h
    · subst h
      apply convertOrderedLine_id
      decide
    · rcases List.mem_append.mp h with h3 | h3
      · apply convertOrderedLine_id
        intro hm
        exact absurd rfl (plainChar_not_special '.' (hCL l h3 '.' hm)).2.2.2.1
      · rcases List.mem_cons.mp h3 with h4 | h4
        · subst h4
          apply convertOrderedLine_id
          decide
        · rw [List.mem_singleton.mp h4]
          apply convertOrderedLine_id
          simp
  rw [show markdownToAsciidoc opts ⟨"```\n".data ++ (linesBlock CL ++ "```".data)⟩
      = ⟨mapLines convertOrderedLine (linksSub (mapLines convertQuoteLine (inlineCodeSub
          (fencePlainSub (fenceLangSub (italicSub (boldSub (mapLines
            (convertHeaderLine (opts.headingLevel.getD 0))
            ("```\n".data ++ (linesBlock CL ++ "```".data))))))))))⟩ from rfl]
  rw [e1, e2, e3, e4, e5, e6, e7, e8, e9]

/-- Joining lines of a list with a fixed nonempty tail keeps the joined
tail as a suffix. -/
theorem joinLines_suffix (pre post : List (List Char)) (h : post ≠ []) :
    joinLines post <:+ joinLines (pre ++ post) := by
  induction pre with
  | nil => exact List.suffix_refl _
  | cons p pre ih =>
    rw [List.cons_append, joinLines_cons _ _ (by simp [h])]
    exact ih.trans ((List.suffix_cons '\n' _).trans (List.suffix_append p _))

/-- When preserveLineBreaks is set, post-processing only prepends material
(title line, attribute block) in front of a body that does not start with
an equals sign: the body stays a suffix of the result. -/
theorem postProcess_preserve_suffix (opts : DocxToAsciidocOptions)
    (hpb : opts.preserveLineBreaks = true) (a : Char) (rest : List Char) (ha : a ≠ '=') :
    (a :: rest) <:+ (postProcessAsciidoc opts ⟨a :: rest⟩).data := by
  have hT : injectTitle (a :: rest) = "= Document Title\n\n".data ++ (a :: rest) :=
    injectTitle_ne a rest ha
  have hres : (postProcessAsciidoc opts ⟨a :: rest⟩).data
      = (if opts.includeAttributes then
          joinLines (insertAttrLines (attributesLines opts) (splitLines (injectTitle (a :: rest))))
        else injectTitle (a :: rest)) := by
    rw [show (postProcessAsciidoc opts ⟨a :: rest⟩).data
        = fixTableCells (if opts.preserveLineBreaks then
            (if opts.includeAttributes then
              joinLines (insertAttrLines (attributesLines opts) (splitLines (injectTitle (a :: rest))))
            else injectTitle (a :: rest))
          else collapseLines (if opts.includeAttributes then
              joinLines (insertAttrLines (attributesLines opts) (splitLines (injectTitle (a :: rest))))
            else injectTitle (a :: rest))) from rfl]
    rw [fixTableCells_id, hpb]
    simp
  rw [hres]
  cases hA : opts.includeAttributes with
  | false =>
    simp only [Bool.false_eq_true, if_false]
    rw [hT]
    exact List.suffix_append _ _
  | true =>
    simp only [if_true]
    rw [hT]
    rw [show ("= Document Title\n\n".data ++ (a :: rest) : List Char)
        = "= Document Title".data ++ '\n' :: ('\n' :: (a :: rest)) from rfl]
    rw [splitLines_line_append _ _ (by decide)]
    rw [show splitLines ('\n' :: (a :: rest)) = [] :: splitLines (a :: rest) from rfl]
    simp only [insertAttrLines]
    rw [if_pos (show matchesHeadingLine ("= Document Title".data) = true from by decide)]
    have h1 : joinLines (("= Document Title".data : List Char)
          :: (attributesLines opts ++ [] :: [] :: splitLines (a :: rest)))
        = "= Document Title".data
          ++ '\n' :: joinLines (attributesLines opts ++ [] :: [] :: splitLines (a :: rest)) :=
      joinLines_cons _ _ (by simp)
    rw [h1]
    have h2 : joinLines (([] : List Char) :: ([] : List Char) :: splitLines (a :: rest))
        = '\n' :: '\n' :: (a :: rest) := by
      rw [joinLines_cons _ _ (List.cons_ne_nil _ _),
        joinLines_cons _ _ (splitLines_ne_nil _), joinLines_splitLines]
      rfl
    have h3 := joinLines_suffix (attributesLines opts)
      ([] :: [] :: splitLines (a :: rest)) (List.cons_ne_nil _ _)
    rw [h2] at h3
    have h4 : (a :: rest) <:+ ('\n' :: '\n' :: (a :: rest)) :=
      (List.suffix_cons '\n' _).trans (List.suffix_cons '\n' _)
    exact (h4.trans h3).trans
      ((List.suffix_cons '\n' _).trans (List.suffix_append _ _))

/-- Evaluation of markdownToAsciidoc on a tagged fence whose code line is
an ordered-list item: the ordered-list rewrite of the chain runs after the
fence rewrite and re-matches inside the emitted delimited block. -/
theorem markdownToAsciidoc_ordered_in_fence :
    markdownToAsciidoc { preserveLineBreaks := true } ⟨"```js\n1. x\n```".data⟩
      = ⟨"[source,js]\n----\n. x\n----\n".data⟩ := by
  have e1 : mapLines (convertHeaderLine 0) ("```js\n1. x\n```".data)
      = "```js\n1. x\n```".data := by decide
  have e2 : boldSub ("```js\n1. x\n```".data) = "```js\n1. x\n```".data :=
    boldSub_id _ (by decide)
  have e3 : italicSub ("```js\n1. x\n```".data) = "```js\n1. x\n```".data :=
    italicSub_id _ (by decide)
  have e4 : fenceLangSub ("```js\n1. x\n```".data)
      = "[source,js]\n----\n1. x\n----\n".data :=
    fenceLangSub_block "js".data "1. x\n".data (by decide) (by decide) (by decide)
  have e5 : fencePlainSub ("[source,js]\n----\n1. x\n----\n".data)
      = "[source,js]\n----\n1. x\n----\n".data := fencePlainSub_id _ (by decide)
  have e6 : inlineCodeSub ("[source,js]\n----\n1. x\n----\n".data)
      = "[source,js]\n----\n1. x\n----\n".data := inlineCodeSub_id _ (by decide)
  have e7 : mapLines convertQuoteLine ("[source,js]\n----\n1. x\n----\n".data)
      = "[source,js]\n----\n1. x\n----\n".data := by decide
  have e8 : linksSub ("[source,js]\n----\n1. x\n----\n".data)
      = "[source,js]\n----\n1. x\n----\n".data := linksSub_id _ (by decide)
  have e9 : mapLines convertOrderedLine ("[source,js]\n----\n1. x\n----\n".data)
      = "[source,js]\n----\n. x\n----\n".data := by decide
  rw [show markdownToAsciidoc { preserveLineBreaks := true } ⟨"```js\n1. x\n```".data⟩
      = ⟨mapLines convertOrderedLine (linksSub (mapLines convertQuoteLine (inlineCodeSub
          (fencePlainSub (fenceLangSub (italicSub (boldSub (mapLines (convertHeaderLine 0)
            ("```js\n1. x\n```".data)))))))))⟩ from rfl]
  rw [e1, e2, e3, e4, e5, e6, e7, e8, e9]

/-- C3: counterexample. Two failures of the original for-every-options
verbatim claim: (a) under the default options (preserveLineBreaks false),
the collapse step of post-processing joins the two code lines ab, cd of a
tagged fence with a space; (b) even with preserveLineBreaks true, the
substitution chain does not protect fence interiors, so the code line
1. x is rewritten to . x by the ordered-list substitution inside the
emitted block. In both cases the block content is not the fence content
verbatim. -/
theorem C3_code_fence_cex :
    (convertDocument {} ⟨"```js\nab\ncd\n```".data⟩
        = ⟨"= Document Title\n\n[source,js]\n----\nab cd\n----\n".data⟩
      ∧ convertDocument {} ⟨"```js\nab\ncd\n```".data⟩
        ≠ ⟨"= Document Title\n\n[source,js]\n----\nab\ncd\n----\n".data⟩)
    ∧ (convertDocument { preserveLineBreaks := true } ⟨"```js\n1. x\n```".data⟩
        = ⟨"= Document Title\n\n[source,js]\n----\n. x\n----\n".data⟩
      ∧ convertDocument { preserveLineBreaks := true } ⟨"```js\n1. x\n```".data⟩
        ≠ ⟨"= Document Title\n\n[source,js]\n----\n1. x\n----\n".data⟩) := by
  have h := markdownToAsciidoc_fence_tagged {} "js".data [['a', 'b'], ['c', 'd']]
      (by decide) (by decide) (by decide)
  have hin : markdownToAsciidoc {} ⟨"```js\nab\ncd\n```".data⟩
      = ⟨"[source,js]\n----\nab\ncd\n----\n".data⟩ := h
  have hpp : convertDocument {} ⟨"```js\nab\ncd\n```".data⟩
      = ⟨"= Document Title\n\n[source,js]\n----\nab cd\n----\n".data⟩ := by
    rw [show convertDocument {} ⟨"```js\nab\ncd\n```".data⟩
        = postProcessAsciidoc {} (markdownToAsciidoc {} ⟨"```js\nab\ncd\n```".data⟩) from rfl,
      hin]
    rfl
  have hpp2 : convertDocument { preserveLineBreaks := true } ⟨"```js\n1. x\n```".data⟩
      = ⟨"= Document Title\n\n[source,js]\n----\n. x\n----\n".data⟩ := by
    rw [show convertDocument { preserveLineBreaks := true } ⟨"```js\n1. x\n```".data⟩
        = postProcessAsciidoc { preserveLineBreaks := true }
            (markdownToAsciidoc { preserveLineBreaks := true } ⟨"```js\n1. x\n```".data⟩)
          from rfl,
      markdownToAsciidoc_ordered_in_fence]
    rfl
  exact ⟨⟨hpp, by rw [hpp]; decide⟩, ⟨hpp2, by rw [hpp2]; decide⟩⟩

/-- C3: amended. When options.preserveLineBreaks is true, a fenced code
block whose language tag is a nonempty alphanumeric word and whose code
lines consist only of alphanumeric characters and spaces converts to a
source-tagged delimited block whose content is verbatim, and an untagged
fence with such content converts to a plain delimited block with verbatim
content; both blocks occur as a suffix of the converted document. The
content restriction is necessary: the substitution chain does not protect
fence interiors, so code lines carrying Markdown-significant characters
are rewritten even when line breaks are preserved (see the
counterexample). -/
theorem C3_code_fence (opts : DocxToAsciidocOptions) (hpb : opts.preserveLineBreaks = true)
    (lang : List Char) (CL : List (List Char))
    (hne : lang ≠ []) (hlang : ∀ c ∈ lang, c.isAlphanum = true)
    (hCL : ∀ l ∈ CL, ∀ c ∈ l, plainChar c = true) :
    (("[source,".data ++ lang ++ "]\n----\n".data ++ linesBlock CL ++ "----\n".data : List Char)
        <:+ (convertDocument opts
          ⟨"```".data ++ lang ++ '\n' :: (linesBlock CL ++ "```".data)⟩).data)
    ∧ (("----\n".data ++ linesBlock CL ++ "----\n".data : List Char)
        <:+ (convertDocument opts ⟨"```\n".data ++ (linesBlock CL ++ "```".data)⟩).data) := by
  constructor
  · rw [show convertDocument opts ⟨"```".data ++ lang ++ '\n' :: (linesBlock CL ++ "```".data)⟩
        = postProcessAsciidoc opts (markdownToAsciidoc opts
            ⟨"```".data ++ lang ++ '\n' :: (linesBlock CL ++ "```".data)⟩) from rfl]
    rw [markdownToAsciidoc_fence_tagged opts lang CL hne hlang hCL]
    rw [show ("[source,".data ++ lang ++ "]\n----\n".data ++ linesBlock CL ++ "----\n".data
          : List Char)
        = '[' :: ("source,".data ++ lang ++ "]\n----\n".data ++ linesBlock CL ++ "----\n".data)
        from rfl]
    exact postProcess_preserve_suffix opts hpb '[' _ (by decide)
  · rw [show convertDocument opts ⟨"```\n".data ++ (linesBlock CL ++ "```".data)⟩
        = postProcessAsciidoc opts (markdownToAsciidoc opts
            ⟨"```\n".data ++ (linesBlock CL ++ "```".data)⟩) from rfl]
    rw [markdownToAsciidoc_fence_untagged opts CL hCL]
    rw [show ("----\n".data ++ linesBlock CL ++ "----\n".data : List Char)
        = '-' :: ("---\n".data ++ linesBlock CL ++ "----\n".data) from rfl]
    exact postProcess_preserve_suffix opts hpb '-' _ (by decide)

/-- C3: witness instantiating the amended theorem at a concrete tagged and
untagged fence. -/
theorem C3_code_fence_witness :
    ((("[source,".data ++ "js".data ++ "]\n----\n".data ++ linesBlock [['a', 'b']]
          ++ "----\n".data : List Char)
        <:+ (convertDocument { preserveLineBreaks := true }
          ⟨"```".data ++ "js".data ++ '\n' :: (linesBlock [['a', 'b']] ++ "```".data)⟩).data)
    ∧ (("----\n".data ++ linesBlock [['a', 'b']] ++ "----\n".data : List Char)
        <:+ (convertDocument { preserveLineBreaks := true }
          ⟨"```\n".data ++ (linesBlock [['a', 'b']] ++ "```".data)⟩).data)) :=
  C3_code_fence { preserveLineBreaks := true } rfl "js".data [['a', 'b']]
    (by decide) (by decide) (by decide)

end Docx2Ascii

/-! ## Geo format converter (ascii2docx.ts, GeoConverter) -/

namespace GeoConverter

/-- The toLowerCase method of JavaScript strings, modelled characterwise;
for the ASCII extension strings at hand this is exact. -/
def toLowerCase (s : String) : String := ⟨s.data.map Char.toLower⟩

/-- Format dispatch from a file extension (ascii2docx.ts lines 448-471).
Formats are modelled as the runtime strings of the TypeScript union; the
switch on the lowercased extension is translated into a decision chain. -/
def getFormatFromExtension (ext : String) : Except String String :=
  let e := toLowerCase ext
  if e = ".json" ∨ e = ".geojson" then .ok "geojson"
  else if e = ".shp" then .ok "shapefile"
  else if e = ".kml" then .ok "kml"
  else if e = ".gml" then .ok "gml"
  else if e = ".topojson" then .ok "topojson"
  else if e = ".wkt" then .ok "wkt"
  else if e = ".csv" then .ok "csv"
  else if e = ".parquet" ∨ e = ".geoparquet" then .ok "geoparquet"
  else .error ("Unsupported file extension: " ++ ext)

/-- Counterexample to claim C4 as stated: the extension .kml is not among
the extensions listed by the claim, yet getFormatFromExtension does not
raise an unsupported-format error for it; it returns the kml format. -/
theorem C4_format_dispatch_cex :
    getFormatFromExtension ".kml" = Except.ok "kml"
      ∧ ".kml" ∉ ([".json", ".geojson", ".shp", ".parquet", ".geoparquet"] : List String) := by
  constructor
  · rfl
  · decide

/-- Claim C4 as amended: getFormatFromExtension maps .json and .geojson to
geojson, .shp to shapefile, .kml to kml, .gml to gml, .topojson to
topojson, .wkt to wkt, .csv to csv, .parquet and .geoparquet to
geoparquet (all case-insensitively), and raises an unsupported-format
error for every extension outside this table. -/
theorem C4_format_dispatch (ext : String) :
    (toLowerCase ext = ".json" ∨ toLowerCase ext = ".geojson" →
      getFormatFromExtension ext = .ok "geojson")
    ∧ (toLowerCase ext = ".shp" → getFormatFromExtension ext = .ok "shapefile")
    ∧ (toLowerCase ext = ".kml" → getFormatFromExtension ext = .ok "kml")
    ∧ (toLowerCase ext = ".gml" → getFormatFromExtension ext = .ok "gml")
    ∧ (toLowerCase ext = ".topojson" → getFormatFromExtension ext = .ok "topojson")
    ∧ (toLowerCase ext = ".wkt" → getFormatFromExtension ext = .ok "wkt")
    ∧ (toLowerCase ext = ".csv" → getFormatFromExtension ext = .ok "csv")
    ∧ (toLowerCase ext = ".parquet" ∨ toLowerCase ext = ".geoparquet" →
      getFormatFromExtension ext = .ok "geoparquet")
    ∧ (toLowerCase ext ∉ ([".json", ".geojson", ".shp", ".kml", ".gml", ".topojson",
        ".wkt", ".csv", ".parquet", ".geoparquet"] : List String) →
      getFormatFromExtension ext = .error ("Unsupported file extension: " ++ ext)) := by
  refine ⟨?_, ?_, ?_, ?_, ?_, ?_, ?_, ?_, ?_⟩ <;> intro h
  · rcases h with h | h <;> simp [getFormatFromExtension, h]
  · simp [getFormatFromExtension, h]
  · simp [getFormatFromExtension, h]
  · simp [getFormatFromExtension, h]
  · simp [getFormatFromExtension, h]
  · simp [getFormatFromExtension, h]
  · simp [getFormatFromExtension, h]
  · rcases h with h | h <;> simp [getFormatFromExtension, h]
  · simp only [List.mem_cons, List.not_mem_nil, or_false, not_or] at h
    obtain ⟨h1, h2, h3, h4, h5, h6, h7, h8, h9, h10⟩ := h
    simp [getFormatFromExtension, h1, h2, h3, h4, h5, h6, h7, h8, h9, h10]

/-- Witness for amended C4 at the unsupported extension .xyz and at a
supported uppercase extension. -/
theorem C4_format_dispatch_witness :
    getFormatFromExtension ".xyz" = Except.error ("Unsupported file extension: " ++ ".xyz")
      ∧ getFormatFromExtension ".SHP" = Except.ok "shapefile" :=
  ⟨(C4_format_dispatch ".xyz").2.2.2.2.2.2.2.2 (by decide),
   (C4_format_dispatch ".SHP").2.1 (by decide)⟩


/-! ### Embedded spatial engine model

The DuckDB engine is modeled as explicit state: a connection flag, a map
from table names to contents, and a record of files written by export
statements.  External primitives (ST_READ, COPY ... FROM, ST_GeomFromWKT,
ST_AsText) are parameters of the model, collected in a GeoEnv record;
non-geometry attribute columns of a row are abstracted away. -/

/-- A geometry value: its ST_GeometryType tag and the envelope bounds
ST_XMin/ST_YMin/ST_XMax/ST_YMax of ST_Envelope. -/
structure Geometry where
  gtype : String
  xmin : Int
  ymin : Int
  xmax : Int
  ymax : Int
deriving DecidableEq

/-- A row of a geometry-bearing table; the geometry column is nullable. -/
structure GeoRow where
  geometry : Option Geometry
deriving DecidableEq

/-- Contents of an engine table: either geometry-bearing rows or a raw
column of text (the temp_wkt_raw staging table). -/
inductive TableData where
  | geo : List GeoRow → TableData
  | raw : List String → TableData
deriving DecidableEq

/-- External primitives of the engine. stRead models
ST_READ(path, options) with the option string of the SQL statement;
copyLines models COPY table FROM path; geomFromWKT models ST_GeomFromWKT;
asText models ST_AsText of a nullable geometry. Failures carry the engine
error message. -/
structure GeoEnv where
  stRead : String → String → Except String (List GeoRow)
  copyLines : String → Except String (List String)
  geomFromWKT : String → Except String Geometry
  asText : Option Geometry → String

/-- Engine state: connection flag (GeoConverter.conn), named tables, and
the files written so far by export statements (path and driver format). -/
structure GeoState where
  connected : Bool
  tables : List (String × TableData)
  written : List (String × String)
deriving DecidableEq

/-- DROP TABLE IF EXISTS name. -/
def dropTable (name : String) (st : GeoState) : GeoState :=
  { st with tables := st.tables.filter (fun p => !(p.1 == name)) }

/-- CREATE TABLE name AS ... (the new entry shadows any older one). -/
def createTable (name : String) (data : TableData) (st : GeoState) : GeoState :=
  { st with tables := (name, data) :: st.tables }

/-- Look up a table by name. -/
def lookupTable (name : String) (st : GeoState) : Option TableData :=
  (st.tables.find? (fun p => p.1 == name)).map Prod.snd

/-- GeoConverter.init (ascii2docx.ts lines 355-366): create the in-memory
database and connection and load the spatial extension. -/
def init (st : GeoState) : GeoState :=
  { st with connected := true }

/-- Record a successful write of an output file by the engine. -/
def writeFile (path fmt : String) (st : GeoState) : GeoState :=
  { st with written := (path, fmt) :: st.written }

/-- GeoConverter.loadData (ascii2docx.ts lines 478-540): drop the staging
table, then dispatch on the input format; each branch materializes the
source file as temp_geo_data via ST_READ, except wkt, which stages raw
text lines in temp_wkt_raw, parses them, and drops the staging text
table; an unknown format raises the unsupported-input error. The state
is returned alongside the outcome. -/
def loadData (env : GeoEnv) (filePath format : String) (st : GeoState) :
    GeoState × Except String Unit :=
  let st := dropTable "temp_geo_data" st
  if format == "geojson" then
    match env.stRead filePath "auto_detect=true" with
    | .ok rows => (createTable "temp_geo_data" (.geo rows) st, .ok ())
    | .error e => (st, .error e)
  else if format == "shapefile" then
    match env.stRead filePath "format=shapefile" with
    | .ok rows => (createTable "temp_geo_data" (.geo rows) st, .ok ())
    | .error e => (st, .error e)
  else if format == "kml" then
    match env.stRead filePath "format=kml" with
    | .ok rows => (createTable "temp_geo_data" (.geo rows) st, .ok ())
    | .error e => (st, .error e)
  else if format == "gml" then
    match env.stRead filePath "format=gml" with
    | .ok rows => (createTable "temp_geo_data" (.geo rows) st, .ok ())
    | .error e => (st, .error e)
  else if format == "csv" then
    match env.stRead filePath "format=csv, auto_detect=true" with
    | .ok rows => (createTable "temp_geo_data" (.geo rows) st, .ok ())
    | .error e => (st, .error e)
  else if format == "geoparquet" then
    match env.stRead filePath "format=parquet" with
    | .ok rows => (createTable "temp_geo_data" (.geo rows) st, .ok ())
    | .error e => (st, .error e)
  else if format == "wkt" then
    let st1 := createTable "temp_wkt_raw" (.raw []) st
    match env.copyLines filePath with
    | .error e => (st1, .error e)
    | .ok lines =>
      let st2 := createTable "temp_wkt_raw" (.raw lines) (dropTable "temp_wkt_raw" st1)
      match lines.mapM env.geomFromWKT with
      | .error e => (st2, .error e)
      | .ok geoms =>
        let st3 := createTable "temp_geo_data"
          (.geo (geoms.map (fun g => ⟨some g⟩))) st2
        (dropTable "temp_wkt_raw" st3, .ok ())
  else if format == "topojson" then
    match env.stRead filePath "format=topojson" with
    | .ok rows => (createTable "temp_geo_data" (.geo rows) st, .ok ())
    | .error e => (st, .error e)
  else
    (st, .error ("Unsupported input format: " ++ format))

/-- GeoConverter.exportData (ascii2docx.ts lines 547-627): dispatch on the
output format; each branch serializes temp_geo_data to the target file
(ST_WRITE with the respective driver, a COPY of textualized geometry for
wkt, and a temp_geo_csv staging table for csv); an unknown format raises
the unsupported-output error. -/
def exportData (env : GeoEnv) (filePath format : String) (st : GeoState) :
    GeoState × Except String Unit :=
  if format == "geojson" then
    match lookupTable "temp_geo_data" st with
    | some (.geo _) => (writeFile filePath "GeoJSON" st, .ok ())
    | _ => (st, .error "Table with name temp_geo_data does not exist!")
  else if format == "shapefile" then
    match lookupTable "temp_geo_data" st with
    | some (.geo _) => (writeFile filePath "ESRI Shapefile" st, .ok ())
    | _ => (st, .error "Table with name temp_geo_data does not exist!")
  else if format == "kml" then
    match lookupTable "temp_geo_data" st with
    | some (.geo _) => (writeFile filePath "KML" st, .ok ())
    | _ => (st, .error "Table with name temp_geo_data does not exist!")
  else if format == "gml" then
    match lookupTable "temp_geo_data" st with
    | some (.geo _) => (writeFile filePath "GML" st, .ok ())
    | _ => (st, .error "Table with name temp_geo_data does not exist!")
  else if format == "csv" then
    match lookupTable "temp_geo_data" st with
    | some (.geo rows) =>
      let st1 := createTable "temp_geo_csv"
        (.raw (rows.map (fun r => env.asText r.geometry))) (dropTable "temp_geo_csv" st)
      let st2 := writeFile filePath "CSV" st1
      (dropTable "temp_geo_csv" st2, .ok ())
    | _ => (st, .error "Table with name temp_geo_data does not exist!")
  else if format == "geoparquet" then
    match lookupTable "temp_geo_data" st with
    | some (.geo _) => (writeFile filePath "Parquet" st, .ok ())
    | _ => (st, .error "Table with name temp_geo_data does not exist!")
  else if format == "wkt" then
    match lookupTable "temp_geo_data" st with
    | some (.geo _) => (writeFile filePath "WKT" st, .ok ())
    | _ => (st, .error "Table with name temp_geo_data does not exist!")
  else if format == "topojson" then
    match lookupTable "temp_geo_data" st with
    | some (.geo _) => (writeFile filePath "TopoJSON" st, .ok ())
    | _ => (st, .error "Table with name temp_geo_data does not exist!")
  else
    (st, .error ("Unsupported output format: " ++ format))

/-- GeoConverter.convert (ascii2docx.ts lines 399-418): initialize the
connection if absent, load the input into the staging table, export it,
and wrap any failure with the uniform conversion-failure prefix. -/
def convert (env : GeoEnv) (inputPath outputPath inputFormat outputFormat : String)
    (st : GeoState) : GeoState × Except String Unit :=
  let st := if st.connected then st else init st
  match loadData env inputPath inputFormat st with
  | (st1, .error e) => (st1, .error ("Conversion failed: " ++ e))
  | (st1, .ok _) =>
    match exportData env outputPath outputFormat st1 with
    | (st2, .error e) => (st2, .error ("Conversion failed: " ++ e))
    | (st2, .ok _) => (st2, .ok ())

/-- Result record of getGeometryInfo. -/
structure GeometryInfo where
  count : Nat
  types : List String
  bounds : List (Option Int)
deriving DecidableEq

/-- MIN aggregate over a column: none on an empty set (SQL NULL). -/
def minAgg : List Int → Option Int
  | [] => none
  | x :: xs =>
    match minAgg xs with
    | none => some x
    | some m => some (min x m)

/-- MAX aggregate over a column: none on an empty set (SQL NULL). -/
def maxAgg : List Int → Option Int
  | [] => none
  | x :: xs =>
    match maxAgg xs with
    | none => some x
    | some m => some (max x m)

/-- GeoConverter.getGeometryInfo (ascii2docx.ts lines 635-677): initialize
if needed, load the data, then run the three aggregate queries (COUNT over
all rows; DISTINCT geometry type and envelope MIN/MAX over rows with
non-null geometry) and assemble the summary; failures are wrapped with the
geometry-info prefix. -/
def getGeometryInfo (env : GeoEnv) (filePath format : String) (st : GeoState) :
    GeoState × Except String GeometryInfo :=
  let st := if st.connected then st else init st
  match loadData env filePath format st with
  | (st1, .error e) => (st1, .error ("Failed to get geometry info: " ++ e))
  | (st1, .ok _) =>
    match lookupTable "temp_geo_data" st1 with
    | some (.geo rows) =>
      let geoms := rows.filterMap (fun r => r.geometry)
      (st1, .ok
        { count := rows.length
          types := (geoms.map (fun g => g.gtype)).dedup
          bounds := [minAgg (geoms.map (fun g => g.xmin)),
                     minAgg (geoms.map (fun g => g.ymin)),
                     maxAgg (geoms.map (fun g => g.xmax)),
                     maxAgg (geoms.map (fun g => g.ymax))] })
    | _ =>
      (st1, .error "Failed to get geometry info: Table with name temp_geo_data does not exist!")


/-- The eight members of the GeoFormat union type (ascii2docx.ts lines
341-349). -/
def geoFormats : List String :=
  ["geojson", "shapefile", "kml", "gml", "csv", "geoparquet", "wkt", "topojson"]

theorem string_append_assoc (a b c : String) : (a ++ b) ++ c = a ++ (b ++ c) := by
  cases a with
  | mk da =>
    cases b with
    | mk db =>
      cases c with
      | mk dc =>
        show String.mk ((da ++ db) ++ dc) = String.mk (da ++ (db ++ dc))
        rw [List.append_assoc]

theorem dropTable_idem (n : String) (st : GeoState) :
    dropTable n (dropTable n st) = dropTable n st := by
  simp [dropTable, List.filter_filter]

theorem dropTable_connected (n : String) (st : GeoState) :
    (dropTable n st).connected = st.connected := rfl

theorem init_dropTable (n : String) (st : GeoState) :
    init (dropTable n st) = dropTable n (init st) := rfl

theorem loadData_dropTable (env : GeoEnv) (p f : String) (st : GeoState) :
    loadData env p f (dropTable "temp_geo_data" st) = loadData env p f st := by
  unfold loadData
  rw [dropTable_idem]

theorem loadData_written (env : GeoEnv) (p f : String) (st : GeoState) :
    (loadData env p f st).1.written = st.written := by
  simp only [loadData]
  repeat' split
  all_goals rfl

theorem lookupTable_dropTable (n : String) (st : GeoState) :
    lookupTable n (dropTable n st) = none := by
  simp only [lookupTable, dropTable]
  induction st.tables with
  | nil => rfl
  | cons p ts ih =>
    cases h : (p.1 == n) with
    | true =>
      rw [List.filter_cons, if_neg (by simp [h])]
      exact ih
    | false =>
      rw [List.filter_cons, if_pos (by simp [h]), List.find?_cons_of_neg _ (by simp [h])]
      exact ih

theorem lookupTable_createTable (n : String) (d : TableData) (st : GeoState) :
    lookupTable n (createTable n d st) = some d := by
  simp [lookupTable, createTable, List.find?]

theorem loadData_unsupported (env : GeoEnv) (p f : String) (st : GeoState)
    (hf : f ∉ geoFormats) :
    loadData env p f st
      = (dropTable "temp_geo_data" st, .error ("Unsupported input format: " ++ f)) := by
  simp only [geoFormats, List.mem_cons, List.not_mem_nil, or_false, not_or] at hf
  obtain ⟨h1, h2, h3, h4, h5, h6, h7, h8⟩ := hf
  simp only [loadData, beq_eq_false_iff_ne.mpr h1, beq_eq_false_iff_ne.mpr h2,
    beq_eq_false_iff_ne.mpr h3, beq_eq_false_iff_ne.mpr h4, beq_eq_false_iff_ne.mpr h5,
    beq_eq_false_iff_ne.mpr h6, beq_eq_false_iff_ne.mpr h7, beq_eq_false_iff_ne.mpr h8,
    Bool.false_eq_true, if_false]

theorem exportData_unsupported (env : GeoEnv) (p f : String) (st : GeoState)
    (hf : f ∉ geoFormats) :
    exportData env p f st = (st, .error ("Unsupported output format: " ++ f)) := by
  simp only [geoFormats, List.mem_cons, List.not_mem_nil, or_false, not_or] at hf
  obtain ⟨h1, h2, h3, h4, h5, h6, h7, h8⟩ := hf
  simp only [exportData, beq_eq_false_iff_ne.mpr h1, beq_eq_false_iff_ne.mpr h2,
    beq_eq_false_iff_ne.mpr h3, beq_eq_false_iff_ne.mpr h4, beq_eq_false_iff_ne.mpr h5,
    beq_eq_false_iff_ne.mpr h6, beq_eq_false_iff_ne.mpr h7, beq_eq_false_iff_ne.mpr h8,
    Bool.false_eq_true, if_false]

theorem loadData_read_error (env : GeoEnv) (p f : String) (st : GeoState) (m : String)
    (hf : f ∈ geoFormats) (hr : ∀ o, env.stRead p o = .error m)
    (hcp : env.copyLines p = .error m) :
    (loadData env p f st).2 = .error m := by
  simp only [geoFormats, List.mem_cons, List.not_mem_nil, or_false] at hf
  rcases hf with h | h | h | h | h | h | h | h <;> subst h <;> simp [loadData, hr, hcp]


/-- C5: GeoConverter.convert rejects with a message carrying the uniform
conversion-failure prefix when the input format is unrecognized, when the
input path cannot be read (all engine reads of it fail), and when the
output format is unrecognized after a successful load; in every such case
the set of written output files is unchanged, because the export step is
never reached (or aborts before writing). -/
theorem C5_convert_failure (env : GeoEnv) (inP outP inF outF : String)
    (st st1 : GeoState) (m : String) :
    (inF ∉ geoFormats →
      (convert env inP outP inF outF st).2
          = .error ("Conversion failed: Unsupported input format: " ++ inF)
        ∧ (convert env inP outP inF outF st).1.written = st.written)
    ∧ (inF ∈ geoFormats → (∀ o, env.stRead inP o = .error m) →
        env.copyLines inP = .error m →
      (convert env inP outP inF outF st).2 = .error ("Conversion failed: " ++ m)
        ∧ (convert env inP outP inF outF st).1.written = st.written)
    ∧ (outF ∉ geoFormats → st.connected = true →
        loadData env inP inF st = (st1, .ok ()) →
      (convert env inP outP inF outF st).2
          = .error ("Conversion failed: Unsupported output format: " ++ outF)
        ∧ (convert env inP outP inF outF st).1.written = st.written) := by
  refine ⟨fun hA => ?_, fun hB hr hcp => ?_, fun hC hc hload => ?_⟩
  · have hld := loadData_unsupported env inP inF (if st.connected then st else init st) hA
    have hmsg : ("Conversion failed: " ++ ("Unsupported input format: " ++ inF) : String)
        = "Conversion failed: Unsupported input format: " ++ inF := by
      rw [← string_append_assoc]
      rfl
    constructor
    · simp only [convert, hld, hmsg]
    · simp only [convert, hld]
      cases hc2 : st.connected <;> rfl
  · rcases hLD : loadData env inP inF (if st.connected then st else init st) with ⟨st2, r⟩
    have hr2 : r = .error m := by
      have h2 := loadData_read_error env inP inF (if st.connected then st else init st) m hB hr hcp
      rw [hLD] at h2
      exact h2
    subst hr2
    have hw : st2.written = st.written := by
      have h3 := loadData_written env inP inF (if st.connected then st else init st)
      rw [hLD] at h3
      rw [h3]
      cases hc2 : st.connected <;> rfl
    constructor
    · simp only [convert, hLD]
    · simp only [convert, hLD]
      exact hw
  · have hexp := exportData_unsupported env outP outF st1 hC
    have hmsg : ("Conversion failed: " ++ ("Unsupported output format: " ++ outF) : String)
        = "Conversion failed: Unsupported output format: " ++ outF := by
      rw [← string_append_assoc]
      rfl
    have hw : st1.written = st.written := by
      have h3 := loadData_written env inP inF st
      rw [hload] at h3
      exact h3
    constructor
    · simp only [convert, hc, if_true, hload, hexp, hmsg]
    · simp only [convert, hc, if_true, hload, hexp]
      exact hw

/-- C5: witness exercising the three failure branches of the theorem at
concrete environments and states. -/
theorem C5_convert_failure_witness :
    ((convert ⟨fun _ _ => Except.error "No files found", fun _ => Except.error "No files found",
        fun w => Except.error w, fun _ => ""⟩ "a.xyz" "b.geojson" "xyz" "geojson"
        ⟨true, [], []⟩).2
      = .error ("Conversion failed: Unsupported input format: " ++ "xyz")
    ∧ (convert ⟨fun _ _ => Except.error "No files found", fun _ => Except.error "No files found",
        fun w => Except.error w, fun _ => ""⟩ "a.xyz" "b.geojson" "xyz" "geojson"
        ⟨true, [], []⟩).1.written = [])
    ∧ ((convert ⟨fun _ _ => Except.error "No files found", fun _ => Except.error "No files found",
        fun w => Except.error w, fun _ => ""⟩ "missing.geojson" "b.wkt" "geojson" "wkt"
        ⟨true, [], []⟩).2
      = .error ("Conversion failed: " ++ "No files found")
    ∧ (convert ⟨fun _ _ => Except.error "No files found", fun _ => Except.error "No files found",
        fun w => Except.error w, fun _ => ""⟩ "missing.geojson" "b.wkt" "geojson" "wkt"
        ⟨true, [], []⟩).1.written = [])
    ∧ ((convert ⟨fun _ _ => Except.ok [], fun _ => Except.error "No files found",
        fun w => Except.error w, fun _ => ""⟩ "a.geojson" "b.xyz" "geojson" "xyz"
        ⟨true, [], []⟩).2
      = .error ("Conversion failed: Unsupported output format: " ++ "xyz")
    ∧ (convert ⟨fun _ _ => Except.ok [], fun _ => Except.error "No files found",
        fun w => Except.error w, fun _ => ""⟩ "a.geojson" "b.xyz" "geojson" "xyz"
        ⟨true, [], []⟩).1.written = []) :=
  ⟨(C5_convert_failure _ "a.xyz" "b.geojson" "xyz" "geojson" ⟨true, [], []⟩
      ⟨true, [], []⟩ "No files found").1 (by decide),
   (C5_convert_failure _ "missing.geojson" "b.wkt" "geojson" "wkt" ⟨true, [], []⟩
      ⟨true, [], []⟩ "No files found").2.1 (by decide) (fun o => rfl) rfl,
   (C5_convert_failure _ "a.geojson" "b.xyz" "geojson" "xyz" ⟨true, [], []⟩
      (createTable "temp_geo_data" (.geo []) (dropTable "temp_geo_data" ⟨true, [], []⟩))
      "No files found").2.2 (by decide) rfl rfl⟩

/-- C6: for a successful call (connection up, engine read succeeds with
rows R), getGeometryInfo returns the feature count of the loaded table,
the distinct geometry types over rows with non-null geometry, and the
bounding box in the order [minX, minY, maxX, maxY] computed as min/max of
the per-row envelope bounds; the returned state is exactly the post-load
state, so the three queries modified nothing. -/
theorem C6_geometry_info (env : GeoEnv) (p : String) (st : GeoState) (R : List GeoRow)
    (hc : st.connected = true)
    (hread : env.stRead p "auto_detect=true" = .ok R) :
    getGeometryInfo env p "geojson" st
      = (createTable "temp_geo_data" (.geo R) (dropTable "temp_geo_data" st),
         .ok { count := R.length
               types := ((R.filterMap (fun r => r.geometry)).map (fun g => g.gtype)).dedup
               bounds := [minAgg ((R.filterMap (fun r => r.geometry)).map (fun g => g.xmin)),
                          minAgg ((R.filterMap (fun r => r.geometry)).map (fun g => g.ymin)),
                          maxAgg ((R.filterMap (fun r => r.geometry)).map (fun g => g.xmax)),
                          maxAgg ((R.filterMap (fun r => r.geometry)).map (fun g => g.ymax))] }) := by
  simp [getGeometryInfo, hc, loadData, hread, lookupTable_createTable]

/-- C6: witness at a two-row table (one point geometry, one null
geometry). -/
theorem C6_geometry_info_witness :
    getGeometryInfo ⟨fun _ _ => Except.ok [⟨some ⟨"POINT", 0, 1, 2, 3⟩⟩, ⟨none⟩],
        fun _ => Except.error "No files found", fun w => Except.error w, fun _ => ""⟩
      "f.geojson" "geojson" ⟨true, [], []⟩
      = (⟨true, [("temp_geo_data", .geo [⟨some ⟨"POINT", 0, 1, 2, 3⟩⟩, ⟨none⟩])], []⟩,
         .ok ⟨2, ["POINT"], [some 0, some 1, some 2, some 3]⟩) :=
  C6_geometry_info _ "f.geojson" ⟨true, [], []⟩ [⟨some ⟨"POINT", 0, 1, 2, 3⟩⟩, ⟨none⟩]
    rfl rfl

/-- C8: both convert and getGeometryInfo recreate the staging table fresh:
their results are insensitive to any pre-existing temp_geo_data table (no
earlier call data is visible), and the drop executed before loading
removes any staging table of that name. -/
theorem C8_staging_fresh (env : GeoEnv) (a b f g : String) (st : GeoState) :
    convert env a b f g (dropTable "temp_geo_data" st) = convert env a b f g st
    ∧ getGeometryInfo env a f (dropTable "temp_geo_data" st) = getGeometryInfo env a f st
    ∧ lookupTable "temp_geo_data" (dropTable "temp_geo_data" st) = none := by
  obtain ⟨conn, tbl, wr⟩ := st
  refine ⟨?_, ?_, lookupTable_dropTable _ _⟩
  · cases conn
    · simp only [convert, dropTable_connected, Bool.false_eq_true, if_false,
        init_dropTable, loadData_dropTable]
    · simp only [convert, dropTable_connected, if_true, loadData_dropTable]
  · cases conn
    · simp only [getGeometryInfo, dropTable_connected, Bool.false_eq_true, if_false,
        init_dropTable, loadData_dropTable]
    · simp only [getGeometryInfo, dropTable_connected, if_true, loadData_dropTable]

end GeoConverter

/-! ## DOCX file validation (docx2ascii.ts, validateDocxFile) -/

namespace Docx2Ascii

/-- Abstract content of a DOCX file as seen through the mammoth library:
the result of the raw-text extraction is either a text or a failure. -/
structure DocxFile where
  rawTextResult : Except String String

/-- Explicit file map for the validation model. -/
abbrev DocxFS := List (String × DocxFile)

/-- Model of validateDocxFile (docx2ascii.ts lines 216-229): an absent
file yields false, a failing extraction is caught and yields false, and a
successful extraction yields true.  The try/catch of the source is
reflected in the total Bool result: no failure escapes. -/
def validateDocxFile (fs : DocxFS) (filePath : String) : Bool :=
  match fs.lookup filePath with
  | none => false
  | some f =>
    match f.rawTextResult with
    | .ok _ => true
    | .error _ => false

/-- Claim C10: validateDocxFile never throws; it returns false when the
file does not exist or the extraction fails, and returns true exactly when
the file exists and the raw-text extraction succeeds. -/
theorem C10_validateDocxFile (fs : DocxFS) (p : String) :
    (validateDocxFile fs p = true
        ↔ ∃ f, fs.lookup p = some f ∧ ∃ t, f.rawTextResult = Except.ok t)
      ∧ (validateDocxFile fs p = false
        ↔ fs.lookup p = none
          ∨ ∃ f, fs.lookup p = some f ∧ ∃ e, f.rawTextResult = Except.error e) := by
  unfold validateDocxFile
  rcases hl : fs.lookup p with _ | f
  · simp
  · rcases hr : f.rawTextResult with e | t <;> simp [hr]

end Docx2Ascii

namespace Ascii2Docx

/-- Options record of convertAsciidocToDocx (ascii2docx.ts). Only the
template path participates in the template-loading logic of lines 79-86;
the remaining presentation fields (title, margins, orientation, header,
footer, author, fontSize) feed the flat conversion config and are
abstracted away here. A JavaScript undefined field is none; note that the
empty string is falsy in the templatePath guard. -/
structure DocxConversionOptions where
  templatePath : Option String := none
deriving DecidableEq

/-- The file system as seen by convertAsciidocToDocx: existence check and
file contents (a template file read is modeled as a string buffer). -/
structure DocxFS where
  fileExists : String → Bool
  readFile : String → String

/-- The two external libraries: the AsciiDoc renderer and the
HTML-to-DOCX generator, which takes the optional template buffer. -/
structure DocxGenEnv where
  asciidoctorConvert : String → String
  htmlToDocx : String → Option String → String

/-- Step 3 of convertAsciidocToDocx (ascii2docx.ts lines 79-83):
templateBuffer starts null and is filled from the template file only when
options.templatePath is truthy (present and nonempty) and the file
exists. -/
def templateBuffer (fs : DocxFS) (options : DocxConversionOptions) : Option String :=
  match options.templatePath with
  | some p => if !(p == "") && fs.fileExists p then some (fs.readFile p) else none
  | none => none

/-- convertAsciidocToDocx (ascii2docx.ts lines 42-103), reduced to its
data flow: render the content to HTML, load the optional template buffer,
generate the DOCX buffer from both, write it to the output path and
return that path. The returned pair is (written file contents, returned
path). -/
def convertAsciidocToDocx (env : DocxGenEnv) (fs : DocxFS)
    (asciidocContent outputPath : String) (options : DocxConversionOptions) :
    String × String :=
  let html := env.asciidoctorConvert asciidocContent
  let tmpl := templateBuffer fs options
  let docxBuffer := env.htmlToDocx html tmpl
  (docxBuffer, outputPath)

/-- C9: the conversion hands the generator exactly the conditional
template buffer and completes returning the output path; the buffer is
null precisely when the template path is absent or names a nonexistent
file (given the path is not the falsy empty string), and it is the loaded
file contents when the path is set and the file exists. -/
theorem C9_template_conditional (env : DocxGenEnv) (fs : DocxFS)
    (content outputPath : String) (options : DocxConversionOptions)
    (hne : options.templatePath ≠ some "") :
    convertAsciidocToDocx env fs content outputPath options
      = (env.htmlToDocx (env.asciidoctorConvert content) (templateBuffer fs options),
         outputPath)
    ∧ (templateBuffer fs options = none ↔
        (options.templatePath = none
          ∨ ∃ p, options.templatePath = some p ∧ fs.fileExists p = false))
    ∧ (∀ p, options.templatePath = some p → fs.fileExists p = true →
        templateBuffer fs options = some (fs.readFile p)) := by
  refine ⟨rfl, ?_, ?_⟩
  · cases hp : options.templatePath with
    | none => simp [templateBuffer, hp]
    | some p =>
      have hpe : ¬p = "" := fun h => hne (by rw [hp, h])
      cases hex : fs.fileExists p with
      | true =>
        simp only [templateBuffer, hp, hex, Bool.and_true, Bool.not_eq_true ]
        constructor
        · intro h
          exact absurd h (by simp [hpe])
        · rintro (h | ⟨q, hq, hqex⟩)
          · exact absurd h (by simp)
          · rw [Option.some.injEq] at hq
            subst hq
            rw [hex] at hqex
            exact absurd hqex (by simp)
      | false =>
        simp only [templateBuffer, hp, hex, Bool.and_false, if_false]
        constructor
        · intro h
          exact Or.inr ⟨p, rfl, hex⟩
        · intro h
          rfl
  · intro p hp hex
    have hpe : (p == "") = false := by
      have : ¬p = "" := fun h => hne (by rw [hp, h])
      exact beq_eq_false_iff_ne.mpr this
    simp [templateBuffer, hp, hpe, hex]

/-- C9: witness instantiating the theorem at a filesystem where the
template file exists. -/
theorem C9_template_conditional_witness :
    convertAsciidocToDocx ⟨fun h => h, fun h t => t.getD h⟩ ⟨fun _ => true, fun _ => "TPL"⟩
        "= Doc" "out.docx" ⟨some "t.docx"⟩
      = ((⟨fun h => h, fun h t => t.getD h⟩ : DocxGenEnv).htmlToDocx
          ((⟨fun h => h, fun h t => t.getD h⟩ : DocxGenEnv).asciidoctorConvert "= Doc")
          (templateBuffer ⟨fun _ => true, fun _ => "TPL"⟩ ⟨some "t.docx"⟩),
         "out.docx")
    ∧ (templateBuffer ⟨fun _ => true, fun _ => "TPL"⟩ ⟨some "t.docx"⟩ = none ↔
        ((⟨some "t.docx"⟩ : DocxConversionOptions).templatePath = none
          ∨ ∃ p, (⟨some "t.docx"⟩ : DocxConversionOptions).templatePath = some p
              ∧ (⟨fun _ => true, fun _ => "TPL"⟩ : DocxFS).fileExists p = false))
    ∧ (∀ p, (⟨some "t.docx"⟩ : DocxConversionOptions).templatePath = some p →
        (⟨fun _ => true, fun _ => "TPL"⟩ : DocxFS).fileExists p = true →
        templateBuffer ⟨fun _ => true, fun _ => "TPL"⟩ ⟨some "t.docx"⟩
          = some ((⟨fun _ => true, fun _ => "TPL"⟩ : DocxFS).readFile p)) :=
  C9_template_conditional ⟨fun h => h, fun h t => t.getD h⟩ ⟨fun _ => true, fun _ => "TPL"⟩
    "= Doc" "out.docx" ⟨some "t.docx"⟩ (by decide)

end Ascii2Docx

end Spec2Proof
